import Mathlib

/-!
Verification development for the SLA-DWP fog scheduler simulator.

The Python sources (`models.py`, `topology.py`, `simulation.py`, `metrics.py`,
`request_generator.py`, `config.py`) are embedded shallowly: every float is
modelled as an exact rational `ℚ`, Python `None` becomes `Option`, Python
`deque`s become `List`s whose head is the left end (`append` = `++ [r]`,
`appendleft` = `r :: q`, `popleft` = tail, `pop` = `dropLast`), and the
`while` loops of `FogNode.process_one_step` become structural recursion
(a fuel argument for the SLA dispatch loop, whose sufficiency is immaterial
to the invariants proved, which hold for every fuel).
-/

namespace FogSim

/-- Embedding of `models.Request`.  The `request_type` enum only feeds
per-type metrics counters that no claim mentions, so it is not carried;
all fields used by scheduling, admission, routing and the SLA update are
present.  Python dataclass equality is field equality, matching the
derived `DecidableEq`. -/
structure Request where
  request_id : Nat
  source_position : ℚ × ℚ
  arrival_time : ℚ
  processing_demand : ℚ
  remaining_demand : ℚ
  data_size : ℚ
  is_emergency : Bool := false
  priority_class : Nat := 1
  relative_deadline_s : ℚ := 60
  absolute_deadline : ℚ := 0
  assigned_fog_id : Option Nat := none
  start_time : Option ℚ := none
  completion_time : Option ℚ := none
  deriving DecidableEq

/-- `Request.latency`: completion minus arrival, `none` if not completed. -/
def Request.latency (r : Request) : Option ℚ :=
  r.completion_time.map (fun ct => ct - r.arrival_time)

/-- `Request.deadline_met`: whether completion happened within the absolute
deadline, `none` if not completed. -/
def Request.deadline_met (r : Request) : Option Bool :=
  r.completion_time.map (fun ct => decide (ct ≤ r.absolute_deadline))

/-- The scheduler-mode string of `FogNode.__init__`.  The source treats the
strings `"DYNAMIC_PRIORITY"` and `"SLA-DWP-Fog"` identically (one membership
test selects both), so they are one constructor; every other string falls
into the FIFO branch. -/
inductive Scheduler where
  | fifo
  | emergencyFirst
  | staticPriority
  | slaDwpFog
  deriving DecidableEq

/-- Embedding of `topology.FogNode`'s state.  Field defaults mirror
`FogNode.__init__` together with the `getattr(..., default)` defaults used
by `_update_sla_weights_window` / `process_one_step` (`sla_window_TW = 10.0`,
`sla_J1_max = 0.10`, `sla_J2_max_s = 5.0`, `sla_J3_max = 2.0`,
`sla_eta{1,2,3} = eta_{1,2,3} = 0.01`, `sla_eps = 1e-6`); on the Python node
these are either the constructor defaults or attributes wired from the
config by `build_grid_topology`, and reading them through one field each is
equivalent.  `completed_history` is `_completed_history`,
`last_window_update` is `_last_window_update`. -/
structure FogNode where
  node_id : Nat
  position : ℚ × ℚ
  cpu_capacity : ℚ
  link_capacity : Option ℚ := none
  max_queue_length : Option Nat := none
  scheduler : Scheduler := Scheduler.fifo
  queue : List Request := []
  emergency_queue : List Request := []
  normal_queue : List Request := []
  priority_queue_3 : List Request := []
  priority_queue_2 : List Request := []
  priority_queue_1 : List Request := []
  dynamic_queue_3 : List Request := []
  dynamic_queue_2 : List Request := []
  dynamic_queue_1 : List Request := []
  alpha : ℚ := 1/3
  beta : ℚ := 1/3
  gamma : ℚ := 1/3
  lambda_1 : ℚ := 0
  lambda_2 : ℚ := 0
  lambda_3 : ℚ := 0
  sla_window_TW : ℚ := 10
  sla_J1_max : ℚ := 1/10
  sla_J2_max_s : ℚ := 5
  sla_J3_max : ℚ := 2
  sla_eta1 : ℚ := 1/100
  sla_eta2 : ℚ := 1/100
  sla_eta3 : ℚ := 1/100
  sla_eps : ℚ := 1/1000000
  completed_history : List Request := []
  last_window_update : ℚ := 0
  current_request : Option Request := none
  current_request_start_time : Option ℚ := none
  current_link_load : ℚ := 0
  total_rejected_due_to_deadline : Nat := 0
  deriving DecidableEq

/-- Outcome of `FogNode.enqueue_request`: `(True, None)`,
`(False, "queue_full")`, `(False, "admission_rejected")`. -/
inductive EnqueueResult where
  | admitted
  | queueFull
  | admissionRejected
  deriving DecidableEq

/-- Test a predicate under an `Option` (false on `None`), as the Python
`x is not None and p(x)` idiom. -/
def optTest {α : Type} (p : α → Bool) : Option α → Bool
  | Option.none => false
  | Option.some a => p a

/-- `FogNode.reset_step_state`: zero the per-step link-load accumulator. -/
def FogNode.reset_step_state (n : FogNode) : FogNode :=
  { n with current_link_load := 0 }

/-- `FogNode.can_accept_request`: link feasibility for this step;
always true when `link_capacity` is `None`. -/
def FogNode.can_accept_request (n : FogNode) (request : Request) (time_step : ℚ) : Bool :=
  match n.link_capacity with
  | Option.none => true
  | Option.some lc => decide (n.current_link_load + request.data_size ≤ lc * time_step)

/-- `FogNode._get_total_queue_length`. -/
def FogNode.get_total_queue_length (n : FogNode) : Nat :=
  match n.scheduler with
  | Scheduler.slaDwpFog =>
      n.dynamic_queue_3.length + n.dynamic_queue_2.length + n.dynamic_queue_1.length +
        (match n.current_request with | Option.some _ => 1 | Option.none => 0)
  | Scheduler.staticPriority =>
      n.priority_queue_3.length + n.priority_queue_2.length + n.priority_queue_1.length
  | Scheduler.emergencyFirst => n.emergency_queue.length + n.normal_queue.length
  | Scheduler.fifo => n.queue.length

/-- Sum of `remaining_demand` over a queue. -/
def sumRemaining (l : List Request) : ℚ :=
  (l.map Request.remaining_demand).sum

/-- The committed work `W_n` of the admission test: remaining demand over the
three dynamic class queues plus the in-service request. -/
def dynamicTotalRemaining (n : FogNode) : ℚ :=
  sumRemaining n.dynamic_queue_3 + sumRemaining n.dynamic_queue_2 + sumRemaining n.dynamic_queue_1 +
    (match n.current_request with | Option.some c => c.remaining_demand | Option.none => 0)

/-- `FogNode._admission_control_check_timebased`:
`t_finish = a_i + (W_n + c_i) / C_n ≤ d_i`. -/
def FogNode.admission_control_check_timebased (n : FogNode) (request : Request) : Bool :=
  decide (request.arrival_time +
    (dynamicTotalRemaining n + request.processing_demand) / n.cpu_capacity ≤
      request.absolute_deadline)

/-- `min 1 (max 0 x)`, the clamping used by `_priority_score`. -/
def clamp01 (x : ℚ) : ℚ := min 1 (max 0 x)

/-- `FogNode._priority_score` parameterised by the weight triple
`(alpha, beta, gamma)` (they are node state, constant during one dispatch
loop). -/
def scoreW (A B C : ℚ) (r : Request) (t : ℚ) : ℚ :=
  let g : ℚ := if r.priority_class = 3 then 1 else if r.priority_class = 2 then 1/2 else 0
  let Di : ℚ := max (1/1000000000) r.relative_deadline_s
  let u : ℚ := clamp01 (1 - (r.absolute_deadline - t) / Di)
  let w : ℚ := clamp01 ((t - r.arrival_time) / Di)
  A * g + B * u + C * w

/-- `FogNode._priority_score` on a node. -/
def FogNode.priority_score (n : FogNode) (r : Request) (t : ℚ) : ℚ :=
  scoreW n.alpha n.beta n.gamma r t

/-- One comparison step of `_select_next_request_sla`'s loop: given the best
candidate so far (whose score equals the tracked `best_score`) and the next
candidate, keep the one the source keeps (strict score improvement, then
smaller slack, then larger waiting time). -/
def selectBetterW (A B C t : ℚ) (best r : Request) : Request :=
  let score := scoreW A B C r t
  let best_score := scoreW A B C best t
  if best_score < score then r
  else if score = best_score then
    let slack_best := best.absolute_deadline - t
    let slack_new := r.absolute_deadline - t
    if slack_new < slack_best then r
    else if slack_new = slack_best then
      if t - best.arrival_time < t - r.arrival_time then r else best
    else best
  else best

/-- `FogNode._select_next_request_sla` over explicit queues: candidates are
`q3 ++ q2 ++ q1`; the first candidate always beats the `-inf` initial score. -/
def selectNextW (A B C t : ℚ) (q3 q2 q1 : List Request) : Option Request :=
  match q3 ++ q2 ++ q1 with
  | [] => Option.none
  | c :: rest => Option.some (rest.foldl (selectBetterW A B C t) c)

/-- `FogNode._select_next_request_sla` on a node. -/
def FogNode.select_next_request_sla (n : FogNode) (t : ℚ) : Option Request :=
  selectNextW n.alpha n.beta n.gamma t n.dynamic_queue_3 n.dynamic_queue_2 n.dynamic_queue_1

/-- Append a request to the dynamic class queue matching its
`priority_class` (3, 2, else 1). -/
def addToDynamicQueue (n : FogNode) (r : Request) : FogNode :=
  if r.priority_class = 3 then { n with dynamic_queue_3 := n.dynamic_queue_3 ++ [r] }
  else if r.priority_class = 2 then { n with dynamic_queue_2 := n.dynamic_queue_2 ++ [r] }
  else { n with dynamic_queue_1 := n.dynamic_queue_1 ++ [r] }

/-- The optional preemption of `enqueue_request` (its lines after the class
queue append): if the running request scores lower than the new one at the
new one's arrival time, push the running request back to the front of its
class queue, pop the newly appended request (the last element of its class
queue), and install it as current, stamping `start_time` if unset. -/
def preemptMaybe (n : FogNode) (request : Request) : FogNode :=
  match n.current_request with
  | Option.none => n
  | Option.some cur =>
    let new_score := n.priority_score request request.arrival_time
    let run_score := n.priority_score cur request.arrival_time
    if run_score < new_score then
      let n1 :=
        if cur.priority_class = 3 then { n with dynamic_queue_3 := cur :: n.dynamic_queue_3 }
        else if cur.priority_class = 2 then { n with dynamic_queue_2 := cur :: n.dynamic_queue_2 }
        else { n with dynamic_queue_1 := cur :: n.dynamic_queue_1 }
      let n2 :=
        if request.priority_class = 3 then { n1 with dynamic_queue_3 := n1.dynamic_queue_3.dropLast }
        else if request.priority_class = 2 then { n1 with dynamic_queue_2 := n1.dynamic_queue_2.dropLast }
        else { n1 with dynamic_queue_1 := n1.dynamic_queue_1.dropLast }
      let request' :=
        if request.start_time = Option.none then
          { request with start_time := Option.some request.arrival_time }
        else request
      { n2 with current_request := Option.some request' }
    else n

/-- The link-load accumulation at the tail of `enqueue_request`
(reached only by the non-SLA admitted paths). -/
def finishAdmit (n : FogNode) (request : Request) : FogNode × EnqueueResult :=
  (match n.link_capacity with
   | Option.some _ => { n with current_link_load := n.current_link_load + request.data_size }
   | Option.none => n,
   EnqueueResult.admitted)

/-- `FogNode.enqueue_request`.  The combined queue-length bound is checked
first for every scheduler; the SLA branch then runs the deadline-predictive
admission test and returns `(True, None)` immediately after the class-queue
append and optional preemption, skipping the link-load accumulation; the
FIFO branch re-checks its own queue bound as in the source. -/
def FogNode.enqueue_request (n : FogNode) (request : Request) (time_step : ℚ) :
    FogNode × EnqueueResult :=
  let _ := time_step
  if optTest (fun m => decide (m ≤ n.get_total_queue_length)) n.max_queue_length then
    (n, EnqueueResult.queueFull)
  else
    match n.scheduler with
    | Scheduler.slaDwpFog =>
      if n.admission_control_check_timebased request then
        (preemptMaybe (addToDynamicQueue n request) request, EnqueueResult.admitted)
      else
        ({ n with total_rejected_due_to_deadline := n.total_rejected_due_to_deadline + 1 },
         EnqueueResult.admissionRejected)
    | Scheduler.staticPriority =>
      finishAdmit
        (if request.priority_class = 3 then
          { n with priority_queue_3 := n.priority_queue_3 ++ [request] }
         else if request.priority_class = 2 then
          { n with priority_queue_2 := n.priority_queue_2 ++ [request] }
         else { n with priority_queue_1 := n.priority_queue_1 ++ [request] }) request
    | Scheduler.emergencyFirst =>
      finishAdmit
        (if request.is_emergency then
          { n with emergency_queue := n.emergency_queue ++ [request] }
         else { n with normal_queue := n.normal_queue ++ [request] }) request
    | Scheduler.fifo =>
      if optTest (fun m => decide (m ≤ n.queue.length)) n.max_queue_length then
        (n, EnqueueResult.queueFull)
      else finishAdmit { n with queue := n.queue ++ [request] } request

/-- The `if req.start_time is None: req.start_time = current_time` stamp done
when a request is first picked up for processing. -/
def stampStart (now : ℚ) (r : Request) : Request :=
  if r.start_time = Option.none then { r with start_time := Option.some now } else r

/-- The head-of-queue processing loop shared by the FIFO, EMERGENCY_FIRST and
STATIC_PRIORITY branches of `process_one_step`
(`while queue and capacity_left > 0: ...`).  Returns the remaining queue, the
completed requests in pop order, and the leftover capacity. -/
def drainQueue (now dt : ℚ) : ℚ → List Request → List Request × List Request × ℚ
  | cap, [] => ([], [], cap)
  | cap, r :: rest =>
    if 0 < cap then
      let r1 := stampStart now r
      if r1.remaining_demand ≤ cap then
        let r2 := { r1 with remaining_demand := 0, completion_time := Option.some (now + dt) }
        let out := drainQueue now dt (cap - r1.remaining_demand) rest
        (out.1, r2 :: out.2.1, out.2.2)
      else
        ({ r1 with remaining_demand := r1.remaining_demand - cap } :: rest, [], 0)
    else (r :: rest, [], cap)

/-- The mutable state walked by the SLA-DWP-Fog dispatch loop of
`process_one_step`: leftover capacity, the in-service request and its
book-kept start time, the three class queues, the completion history, and
the completed list being accumulated. -/
structure SlaState where
  cap : ℚ
  cur : Option Request
  curStart : Option ℚ
  q3 : List Request
  q2 : List Request
  q1 : List Request
  hist : List Request
  completed : List Request
  deriving DecidableEq

/-- The selection step at the bottom of the SLA dispatch loop body: pick the
argmax-score request, remove it from its class queue (`deque.remove`, first
occurrence by value equality), stamp `start_time` if unset, and install it as
current (also recording `current_request_start_time = now`). -/
def slaTake (now : ℚ) (nr : Request) (s : SlaState) : SlaState :=
  let s1 :=
    if nr.priority_class = 3 then { s with q3 := s.q3.erase nr }
    else if nr.priority_class = 2 then { s with q2 := s.q2.erase nr }
    else { s with q1 := s.q1.erase nr }
  { s1 with cur := Option.some (stampStart now nr), curStart := Option.some now }

/-- The state after the SLA dispatch loop finishes its current request:
capacity drops by its remaining demand, the in-service slot empties, and the
zero-demand completed request (with `completion_time = now + dt`) is appended
to both the completion history and this step's completed list. -/
def completeCur (now dt : ℚ) (r : Request) (s : SlaState) : SlaState :=
  { s with
    cap := s.cap - r.remaining_demand
    cur := Option.none
    curStart := Option.none
    hist := s.hist ++ [{ r with remaining_demand := 0, completion_time := Option.some (now + dt) }]
    completed := s.completed ++
      [{ r with remaining_demand := 0, completion_time := Option.some (now + dt) }] }

/-- The SLA-DWP-Fog `while capacity_left > 0` loop of `process_one_step`,
with the weight triple fixed (the node's weights do not change inside the
loop).  Fuel-indexed structural recursion; each recursive call follows a
successful selection, so `|q3| + |q2| + |q1| + 1` fuel replays the Python
loop exactly on well-formed queues, and every invariant proved below holds
for every fuel.  Note the source falls through from completing the current
request to selection in the same iteration without re-checking the budget,
so a request can be selected (and stamped) with zero budget left. -/
def slaLoop (A B C now dt : ℚ) : Nat → SlaState → SlaState
  | 0, s => s
  | fuel + 1, s =>
    if 0 < s.cap then
      match s.cur with
      | Option.some r =>
        if r.remaining_demand ≤ s.cap then
          let r' := { r with remaining_demand := 0, completion_time := Option.some (now + dt) }
          let s' := { s with
            cap := s.cap - r.remaining_demand
            cur := Option.none
            curStart := Option.none
            hist := s.hist ++ [r']
            completed := s.completed ++ [r'] }
          match selectNextW A B C now s'.q3 s'.q2 s'.q1 with
          | Option.none => s'
          | Option.some nr => slaLoop A B C now dt fuel (slaTake now nr s')
        else
          { s with
            cap := 0
            cur := Option.some { r with remaining_demand := r.remaining_demand - s.cap } }
      | Option.none =>
        match selectNextW A B C now s.q3 s.q2 s.q1 with
        | Option.none => s
        | Option.some nr => slaLoop A B C now dt fuel (slaTake now nr s)
    else s

/-- `FogNode._update_sla_weights_window`: time-window SLA metrics
`J1, J2, J3`, clamped dual ascent, and weight normalisation.  Returns the
node unchanged when no completion falls in the trailing `TW`-second
window. -/
def FogNode.update_sla_weights_window (current_time : ℚ) (n : FogNode) : FogNode :=
  let TW := n.sla_window_TW
  let window_tasks := n.completed_history.filter fun r =>
    optTest (fun ct => decide (current_time - TW ≤ ct)) r.completion_time
  if window_tasks.isEmpty then n
  else
    let emer := window_tasks.filter fun r => decide (r.priority_class = 3)
    let J1 : ℚ :=
      if emer.isEmpty then 0
      else ((emer.countP fun r => r.deadline_met == Option.some false : Nat) : ℚ) / (emer.length : ℚ)
    let lats := window_tasks.filterMap Request.latency
    let J2 : ℚ := if lats.isEmpty then 0 else lats.sum / (lats.length : ℚ)
    let normal := (window_tasks.filter fun r => decide (r.priority_class = 1)).filterMap Request.latency
    let emer_l := (window_tasks.filter fun r => decide (r.priority_class = 3)).filterMap Request.latency
    let J3 : ℚ :=
      if !emer_l.isEmpty && !normal.isEmpty then
        (normal.sum / (normal.length : ℚ)) / max (1/1000000000) (emer_l.sum / (emer_l.length : ℚ))
      else 1
    let l1 := max 0 (n.lambda_1 + n.sla_eta1 * (J1 - n.sla_J1_max))
    let l2 := max 0 (n.lambda_2 + n.sla_eta2 * (J2 - n.sla_J2_max_s))
    let l3 := max 0 (n.lambda_3 + n.sla_eta3 * (J3 - n.sla_J3_max))
    let S := (l1 + n.sla_eps) + (l2 + n.sla_eps) + (l3 + n.sla_eps)
    { n with
      lambda_1 := l1
      lambda_2 := l2
      lambda_3 := l3
      alpha := (l1 + n.sla_eps) / S
      beta := (l2 + n.sla_eps) / S
      gamma := (l3 + n.sla_eps) / S }

/-- The window-boundary guard at the end of the SLA branch of
`process_one_step`: run the weight update and move `_last_window_update`
forward only when at least `TW` seconds of simulation time have passed. -/
def maybeWindowUpdate (current_time : ℚ) (n : FogNode) : FogNode :=
  if n.sla_window_TW ≤ current_time - n.last_window_update then
    { n.update_sla_weights_window current_time with last_window_update := current_time }
  else n

/-- `FogNode.process_one_step`: one step of the node's scheduling policy with
budget `cpu_capacity * time_step`, returning the updated node and the list of
requests completed this step. -/
def FogNode.process_one_step (current_time time_step : ℚ) (n : FogNode) :
    FogNode × List Request :=
  let capacity := n.cpu_capacity * time_step
  match n.scheduler with
  | Scheduler.slaDwpFog =>
    let s0 : SlaState :=
      { cap := capacity, cur := n.current_request, curStart := n.current_request_start_time,
        q3 := n.dynamic_queue_3, q2 := n.dynamic_queue_2, q1 := n.dynamic_queue_1,
        hist := n.completed_history, completed := [] }
    let fuel := n.dynamic_queue_3.length + n.dynamic_queue_2.length + n.dynamic_queue_1.length + 1
    let s1 := slaLoop n.alpha n.beta n.gamma current_time time_step fuel s0
    let n1 := { n with
      current_request := s1.cur
      current_request_start_time := s1.curStart
      dynamic_queue_3 := s1.q3
      dynamic_queue_2 := s1.q2
      dynamic_queue_1 := s1.q1
      completed_history := s1.hist }
    (maybeWindowUpdate current_time n1, s1.completed)
  | Scheduler.staticPriority =>
    let o3 := drainQueue current_time time_step capacity n.priority_queue_3
    let o2 := drainQueue current_time time_step o3.2.2 n.priority_queue_2
    let o1 := drainQueue current_time time_step o2.2.2 n.priority_queue_1
    ({ n with priority_queue_3 := o3.1, priority_queue_2 := o2.1, priority_queue_1 := o1.1 },
     o3.2.1 ++ o2.2.1 ++ o1.2.1)
  | Scheduler.emergencyFirst =>
    let oe := drainQueue current_time time_step capacity n.emergency_queue
    let on_ := drainQueue current_time time_step oe.2.2 n.normal_queue
    ({ n with emergency_queue := oe.1, normal_queue := on_.1 }, oe.2.1 ++ on_.2.1)
  | Scheduler.fifo =>
    let o := drainQueue current_time time_step capacity n.queue
    ({ n with queue := o.1 }, o.2.1)

/-- `FogNode.queue_length`: the combined queue length. -/
def FogNode.queue_length (n : FogNode) : Nat :=
  n.get_total_queue_length

/-- The SLA dispatch state at the start of a `process_one_step` call. -/
def slaInitState (t dt : ℚ) (n : FogNode) : SlaState :=
  { cap := n.cpu_capacity * dt
    cur := n.current_request
    curStart := n.current_request_start_time
    q3 := n.dynamic_queue_3
    q2 := n.dynamic_queue_2
    q1 := n.dynamic_queue_1
    hist := n.completed_history
    completed := [] }

/-- The fuel `process_one_step` hands the SLA loop: one more than the
number of queued requests, enough for the loop to run to its Python exit
condition on well-formed queues. -/
def slaFuel (n : FogNode) : Nat :=
  n.dynamic_queue_3.length + n.dynamic_queue_2.length + n.dynamic_queue_1.length + 1

/-- The SLA dispatch state after the loop of one `process_one_step` call. -/
def slaFinal (t dt : ℚ) (n : FogNode) : SlaState :=
  slaLoop n.alpha n.beta n.gamma t dt (slaFuel n) (slaInitState t dt n)

/-- The node as the SLA branch of `process_one_step` writes it back after
the dispatch loop, before the window-boundary weight update. -/
def slaPostNode (t dt : ℚ) (n : FogNode) : FogNode :=
  { n with
    current_request := (slaFinal t dt n).cur
    current_request_start_time := (slaFinal t dt n).curStart
    dynamic_queue_3 := (slaFinal t dt n).q3
    dynamic_queue_2 := (slaFinal t dt n).q2
    dynamic_queue_1 := (slaFinal t dt n).q1
    completed_history := (slaFinal t dt n).hist }

instance : Inhabited FogNode :=
  ⟨{ node_id := 0, position := (0, 0), cpu_capacity := 0 }⟩

/-- The counters of `metrics.MetricsCollector` that the conservation
invariant speaks about.  `total_admitted` is incremented inline by
`Simulation.run`; the others by `record_generated` / `record_rejected` /
`record_dropped` / `record_completed`. -/
structure Metrics where
  total_generated : Nat := 0
  total_admitted : Nat := 0
  total_rejected : Nat := 0
  total_dropped : Nat := 0
  total_completed : Nat := 0
  deriving DecidableEq

/-- `FogTopology.get_nearest_fog`, returning the index of the chosen node.
The source iterates forward keeping the first node of strictly smallest
Euclidean distance (`sqrt` is strictly monotone, so comparing squared
distances is equivalent); this right-recursion keeps the earlier index on
ties, which is the same choice.  Returns the index paired with its squared
distance; `none` only on an empty node list (where the source's
`assert best_node is not None` would fire). -/
def nearestIdxFrom (pos : ℚ × ℚ) : List FogNode → Nat → Option (Nat × ℚ)
  | [], _ => Option.none
  | node :: rest, i =>
    let d := (node.position.1 - pos.1) ^ 2 + (node.position.2 - pos.2) ^ 2
    match nearestIdxFrom pos rest (i + 1) with
    | Option.none => Option.some (i, d)
    | Option.some (j, dj) => if dj < d then Option.some (j, dj) else Option.some (i, d)

/-- Index of the nearest fog node. -/
def nearestIdx (pos : ℚ × ℚ) (nodes : List FogNode) : Option Nat :=
  (nearestIdxFrom pos nodes 0).map Prod.fst

/-- The body of `Simulation.run`'s per-request loop: route to the nearest
node, check link feasibility, and classify the enqueue outcome into the
admitted / rejected / dropped counters exactly as the source does
(`admission_rejected` feeds `record_rejected`, every other failure
`record_dropped`). -/
def routeOne (dt : ℚ) (st : List FogNode × Metrics) (req : Request) :
    List FogNode × Metrics :=
  let nodes := st.1
  let m := st.2
  match nearestIdx req.source_position nodes with
  | Option.none => (nodes, m)
  | Option.some i =>
    let node := nodes.getD i default
    let req' := { req with assigned_fog_id := Option.some node.node_id }
    if node.can_accept_request req' dt then
      let out := node.enqueue_request req' dt
      let nodes' := nodes.set i out.1
      match out.2 with
      | EnqueueResult.admitted => (nodes', { m with total_admitted := m.total_admitted + 1 })
      | EnqueueResult.admissionRejected =>
          (nodes', { m with total_rejected := m.total_rejected + 1 })
      | EnqueueResult.queueFull => (nodes', { m with total_dropped := m.total_dropped + 1 })
    else (nodes, { m with total_dropped := m.total_dropped + 1 })

/-- Step every node (`for node in all_nodes(): node.process_one_step(...)`),
collecting completions in node order. -/
def processAll (t dt : ℚ) : List FogNode → List FogNode × List Request
  | [] => ([], [])
  | node :: rest =>
    let out := node.process_one_step t dt
    let outRest := processAll t dt rest
    (out.1 :: outRest.1, out.2 ++ outRest.2)

/-- One iteration of `Simulation.run`'s time loop: reset per-step node state,
record the generated batch, route and classify each arrival, process every
node and record completions. -/
def simStep (t dt : ℚ) (arrivals : List Request) (nodes : List FogNode) (m : Metrics) :
    List FogNode × Metrics :=
  let nodes0 := nodes.map FogNode.reset_step_state
  let m1 := { m with total_generated := m.total_generated + arrivals.length }
  let st := arrivals.foldl (routeOne dt) (nodes0, m1)
  let pr := processAll t dt st.1
  (pr.1, { st.2 with total_completed := st.2.total_completed + pr.2.length })

/-- `Simulation.run`'s `while time < sim_time` loop, driven by the list of
per-step arrival batches pulled from the external generator (one batch per
step, as `generate_requests(time)` delivers); time advances by `dt` per
step. -/
def simRun (dt : ℚ) : ℚ → List (List Request) → List FogNode → Metrics →
    List FogNode × Metrics
  | _, [], nodes, m => (nodes, m)
  | t, arrivals :: rest, nodes, m =>
    let out := simStep t dt arrivals nodes m
    simRun dt (t + dt) rest out.1 out.2

/-- Embedding of `config.SimulationConfig` with its defaults.  Grid
dimensions and the arrival bound are `ℤ` since the error-handling claims
quantify over non-positive values. -/
structure SimulationConfig where
  sim_time : ℚ := 3600
  time_step : ℚ := 1
  time_step_ms : Option ℤ := Option.none
  random_seed : ℤ := 42
  city_width : ℚ := 1000
  city_height : ℚ := 1000
  num_fog_nodes_x : ℤ := 2
  num_fog_nodes_y : ℤ := 2
  fog_cpu_capacity : ℚ := 10
  fog_link_capacity : ℚ := 50
  fog_max_queue_length : Option Nat := Option.none
  avg_requests_per_step : ℚ := 5
  max_requests_per_step : ℤ := 200
  scheduler : Scheduler := Scheduler.fifo
  sla_window_TW : ℚ := 10
  sla_J1_max : ℚ := 1/10
  sla_J2_max_s : ℚ := 5
  sla_J3_max : ℚ := 2
  sla_eta1 : ℚ := 1/100
  sla_eta2 : ℚ := 1/100
  sla_eta3 : ℚ := 1/100
  sla_eps : ℚ := 1/1000000
  deriving DecidableEq

/-- The `dt` selection at the top of `Simulation.run`: `time_step_ms`
(milliseconds) takes precedence over `time_step` (seconds). -/
def simDt (config : SimulationConfig) : ℚ :=
  match config.time_step_ms with
  | Option.some ms => (ms : ℚ) / 1000
  | Option.none => config.time_step

/-- The node built for one grid cell of `build_grid_topology`, with the
eight SLA parameters wired from the config (the source's
`hasattr`/`setattr` loop; every `SimulationConfig` carries them). -/
def mkGridNode (config : SimulationConfig) (node_id : Nat) (pos : ℚ × ℚ) : FogNode :=
  { node_id := node_id
    position := pos
    cpu_capacity := config.fog_cpu_capacity
    link_capacity := Option.some config.fog_link_capacity
    max_queue_length := config.fog_max_queue_length
    scheduler := config.scheduler
    sla_window_TW := config.sla_window_TW
    sla_J1_max := config.sla_J1_max
    sla_J2_max_s := config.sla_J2_max_s
    sla_J3_max := config.sla_J3_max
    sla_eta1 := config.sla_eta1
    sla_eta2 := config.sla_eta2
    sla_eta3 := config.sla_eta3
    sla_eps := config.sla_eps }

/-- `topology.build_grid_topology`: raises `ValueError` on a non-positive
grid dimension, else places `num_fog_nodes_x * num_fog_nodes_y` nodes evenly
(ids in `ix`-major order, as the nested loops assign them). -/
def build_grid_topology (config : SimulationConfig) : Except String (List FogNode) :=
  if config.num_fog_nodes_x ≤ 0 ∨ config.num_fog_nodes_y ≤ 0 then
    Except.error "Number of fog nodes in each dimension must be positive."
  else
    let nx := config.num_fog_nodes_x.toNat
    let ny := config.num_fog_nodes_y.toNat
    let step_x := config.city_width / ((config.num_fog_nodes_x : ℚ) + 1)
    let step_y := config.city_height / ((config.num_fog_nodes_y : ℚ) + 1)
    Except.ok <| (List.range nx).flatMap fun ix =>
      (List.range ny).map fun iy =>
        mkGridNode config (ix * ny + iy) (((ix : ℚ) + 1) * step_x, ((iy : ℚ) + 1) * step_y)

/-- The per-type probability weights hard-coded in
`RequestGenerator.__init__` (in source order). -/
def default_type_probabilities : List ℚ :=
  [8/100, 8/100, 5/100, 3/100, 2/100, 10/100, 8/100, 8/100, 8/100, 10/100,
   5/100, 5/100, 2/100, 2/100, 0]

/-- The only validation `RequestGenerator.__init__` performs: it raises
`ValueError` iff the sum of the type probabilities is non-positive.  It
never inspects `max_requests_per_step`. -/
def request_generator_init_check (type_probabilities : List ℚ) : Except String Unit :=
  if type_probabilities.sum ≤ 0 then
    Except.error "Sum of type probabilities must be positive."
  else Except.ok ()

/-- The arrival-count logic of `RequestGenerator.generate_requests`, with the
RNG abstracted as a stream of draws in `[0, 1)`: when
`max_requests_per_step ≤ 0` the source returns the empty list at once (no
exception); otherwise it counts `max_n` Bernoulli successes against
`p = min(1, avg / max_n)` (or `p = 0` when `avg ≤ 0`).  Total — the source
has no failure path here. -/
def generate_requests_num_new (config : SimulationConfig) (draws : List ℚ) : Nat :=
  let max_n := config.max_requests_per_step
  if max_n ≤ 0 then 0
  else
    let p : ℚ :=
      if 0 < config.avg_requests_per_step then
        min 1 (config.avg_requests_per_step / (max_n : ℚ))
      else 0
    (draws.take max_n.toNat).countP fun d => decide (d < p)

/-! ### State measures and well-formedness predicates used by the invariants -/

/-- 1 if a request is in service, else 0. -/
def curCount : Option Request → Nat
  | Option.some _ => 1
  | Option.none => 0

/-- Remaining demand held in the in-service slot. -/
def curRem : Option Request → ℚ
  | Option.some c => c.remaining_demand
  | Option.none => 0

/-- Class-queue well-formedness of the SLA dispatch state: each dynamic queue
holds exactly the classes `enqueue_request` routes to it, so
`deque.remove(next_req)` always finds its target. -/
def wfS (s : SlaState) : Prop :=
  (∀ r ∈ s.q3, r.priority_class = 3) ∧ (∀ r ∈ s.q2, r.priority_class = 2) ∧
    (∀ r ∈ s.q1, r.priority_class ≠ 3 ∧ r.priority_class ≠ 2)

/-- Nonnegative remaining demand across the SLA dispatch state. -/
def nonnegS (s : SlaState) : Prop :=
  (∀ r ∈ s.q3, 0 ≤ r.remaining_demand) ∧ (∀ r ∈ s.q2, 0 ≤ r.remaining_demand) ∧
    (∀ r ∈ s.q1, 0 ≤ r.remaining_demand) ∧
    (∀ r, s.cur = Option.some r → 0 ≤ r.remaining_demand)

/-- Every request held by the SLA dispatch state is still unfinished:
no completion time and strictly positive remaining demand. -/
def posS (s : SlaState) : Prop :=
  (∀ r ∈ s.q3 ++ s.q2 ++ s.q1, r.completion_time = Option.none ∧ 0 < r.remaining_demand) ∧
    (∀ r, s.cur = Option.some r → r.completion_time = Option.none ∧ 0 < r.remaining_demand)

/-- Number of requests held by the SLA dispatch state (queued plus in
service). -/
def sCount (s : SlaState) : Nat :=
  s.q3.length + s.q2.length + s.q1.length + curCount s.cur

/-- Total remaining demand held by the SLA dispatch state. -/
def sRemaining (s : SlaState) : ℚ :=
  sumRemaining s.q3 + sumRemaining s.q2 + sumRemaining s.q1 + curRem s.cur

/-- Requests held by the SLA machinery of a node: the three dynamic class
queues plus the in-service slot. -/
def dynCount (n : FogNode) : Nat :=
  n.dynamic_queue_3.length + n.dynamic_queue_2.length + n.dynamic_queue_1.length +
    curCount n.current_request

/-- Class-queue well-formedness of a node's SLA queues (matching what
`enqueue_request`'s class dispatch establishes). -/
def nodeWf (n : FogNode) : Prop :=
  (∀ r ∈ n.dynamic_queue_3, r.priority_class = 3) ∧
    (∀ r ∈ n.dynamic_queue_2, r.priority_class = 2) ∧
    (∀ r ∈ n.dynamic_queue_1, r.priority_class ≠ 3 ∧ r.priority_class ≠ 2)

/-- Nonnegative remaining demand across every queue and the in-service slot
of a node. -/
def nodeNonneg (n : FogNode) : Prop :=
  (∀ r ∈ n.queue, 0 ≤ r.remaining_demand) ∧
    (∀ r ∈ n.emergency_queue, 0 ≤ r.remaining_demand) ∧
    (∀ r ∈ n.normal_queue, 0 ≤ r.remaining_demand) ∧
    (∀ r ∈ n.priority_queue_3, 0 ≤ r.remaining_demand) ∧
    (∀ r ∈ n.priority_queue_2, 0 ≤ r.remaining_demand) ∧
    (∀ r ∈ n.priority_queue_1, 0 ≤ r.remaining_demand) ∧
    (∀ r ∈ n.dynamic_queue_3, 0 ≤ r.remaining_demand) ∧
    (∀ r ∈ n.dynamic_queue_2, 0 ≤ r.remaining_demand) ∧
    (∀ r ∈ n.dynamic_queue_1, 0 ≤ r.remaining_demand) ∧
    (∀ r, n.current_request = Option.some r → 0 ≤ r.remaining_demand)

/-- Total remaining demand a node holds in the queues its scheduler uses
(the same selection as `_get_total_queue_length`). -/
def nodeRemaining (n : FogNode) : ℚ :=
  match n.scheduler with
  | Scheduler.slaDwpFog =>
      sumRemaining n.dynamic_queue_3 + sumRemaining n.dynamic_queue_2 +
        sumRemaining n.dynamic_queue_1 + curRem n.current_request
  | Scheduler.staticPriority =>
      sumRemaining n.priority_queue_3 + sumRemaining n.priority_queue_2 +
        sumRemaining n.priority_queue_1
  | Scheduler.emergencyFirst => sumRemaining n.emergency_queue + sumRemaining n.normal_queue
  | Scheduler.fifo => sumRemaining n.queue

/-- Requests held across a list of nodes (queued plus in service), the
system population the conservation argument tracks. -/
def sysSize (nodes : List FogNode) : Nat :=
  (nodes.map FogNode.get_total_queue_length).sum

/-- The SLA weight-normalisation invariant claimed for the adaptive policy:
non-negative dual variables, weights summing to one, and each weight
strictly positive and at most one. -/
def slaWeightInv (n : FogNode) : Prop :=
  0 ≤ n.lambda_1 ∧ 0 ≤ n.lambda_2 ∧ 0 ≤ n.lambda_3 ∧
    n.alpha + n.beta + n.gamma = 1 ∧
    0 < n.alpha ∧ n.alpha ≤ 1 ∧
    0 < n.beta ∧ n.beta ≤ 1 ∧
    0 < n.gamma ∧ n.gamma ≤ 1

/-! ### Concrete fixtures for witnesses and counterexamples -/

/-- An emergency-class request with ample deadline slack. -/
def reqEasy : Request :=
  { request_id := 0, source_position := (0, 0), arrival_time := 0,
    processing_demand := 1, remaining_demand := 1, data_size := 1,
    is_emergency := true, priority_class := 3, relative_deadline_s := 10,
    absolute_deadline := 10 }

/-- A request that cannot meet its deadline on an idle unit-capacity node:
100 work units against a deadline one second away. -/
def reqHard : Request :=
  { request_id := 1, source_position := (0, 0), arrival_time := 0,
    processing_demand := 100, remaining_demand := 100, data_size := 1,
    is_emergency := true, priority_class := 3, relative_deadline_s := 1,
    absolute_deadline := 1 }

/-- An idle SLA-adaptive node of unit capacity. -/
def slaNodeEmpty : FogNode :=
  { node_id := 0, position := (0, 0), cpu_capacity := 1,
    scheduler := Scheduler.slaDwpFog }

/-- An SLA-adaptive node whose combined queue is at its bound
(`max_queue_length = 1` with one queued request). -/
def slaNodeFull : FogNode :=
  { slaNodeEmpty with
    max_queue_length := Option.some 1
    dynamic_queue_3 := [reqEasy] }

/-- The scenario request of the spec: total work `2.5` units, arriving at
`t = 0`. -/
def reqScenario : Request :=
  { request_id := 2, source_position := (0, 0), arrival_time := 0,
    processing_demand := 5/2, remaining_demand := 5/2, data_size := 1,
    priority_class := 1, relative_deadline_s := 60, absolute_deadline := 60 }

/-- A FIFO node of unit capacity holding only the scenario request. -/
def fifoNodeScenario : FogNode :=
  { node_id := 0, position := (0, 0), cpu_capacity := 1, queue := [reqScenario] }

/-- The scenario request re-labelled as class 3 for the priority fixtures. -/
def reqScenario3 : Request :=
  { reqScenario with request_id := 3, priority_class := 3 }

/-- The scenario request re-labelled as class 2 for the priority fixtures. -/
def reqScenario2 : Request :=
  { reqScenario with request_id := 4, priority_class := 2 }

/-- The scenario request re-labelled as an emergency for the
emergency-first fixture. -/
def reqScenarioE : Request :=
  { reqScenario with request_id := 5, is_emergency := true }

/-- A Static-Priority node of unit capacity holding an unfinishable class-3
request ahead of a class-2 request. -/
def spNodeScenario : FogNode :=
  { node_id := 0, position := (0, 0), cpu_capacity := 1,
    scheduler := Scheduler.staticPriority,
    priority_queue_3 := [reqScenario3],
    priority_queue_2 := [reqScenario2] }

/-- An Emergency-First node of unit capacity holding an unfinishable
emergency request ahead of a normal request. -/
def efNodeScenario : FogNode :=
  { node_id := 0, position := (0, 0), cpu_capacity := 1,
    scheduler := Scheduler.emergencyFirst,
    emergency_queue := [reqScenarioE],
    normal_queue := [reqScenario] }

/-- A completed class-3 request that missed its deadline (finished at
`t = 5` against an absolute deadline of `1`). -/
def reqMissed : Request :=
  { request_id := 6, source_position := (0, 0), arrival_time := 0,
    processing_demand := 1, remaining_demand := 0, data_size := 1,
    is_emergency := true, priority_class := 3, relative_deadline_s := 1,
    absolute_deadline := 1, completion_time := Option.some 5 }

/-- The idle SLA node with one deadline-missing completion in its history. -/
def slaNodeHist : FogNode :=
  { slaNodeEmpty with completed_history := [reqMissed] }

/-- `slaNodeHist` after one weight update at `t = 0`: the class-3 window
miss rate is `J1 = 1`, so `lambda_1` rises to
`eta1 * (J1 - J1_max) = 9/1000` and the weights renormalise around it. -/
def slaNodeHistOnce : FogNode :=
  { slaNodeEmpty with
    completed_history := [reqMissed]
    lambda_1 := 9/1000
    alpha := 9001/9003
    beta := 1/9003
    gamma := 1/9003 }

/-- A FIFO node with a finite link capacity, for the link-budget claims. -/
def fifoNodeLink : FogNode :=
  { node_id := 0, position := (0, 0), cpu_capacity := 1,
    link_capacity := Option.some 50 }

/-- The idle SLA node with the low-priority scenario request in service. -/
def slaNodePre : FogNode :=
  { slaNodeEmpty with current_request := Option.some reqScenario }

/-- `reqEasy` as the head-of-queue drain completes it at `now = 0`,
`dt = 1`: start stamped at `0`, demand exhausted, completion at `0 + 1`. -/
def reqEasyDone : Request :=
  { reqEasy with
    start_time := Option.some 0
    remaining_demand := 0
    completion_time := Option.some (0 + 1) }

/-! ### Helper lemmas -/

theorem admission_check_true_iff (n : FogNode) (r : Request) :
    n.admission_control_check_timebased r = true ↔
      r.arrival_time + (dynamicTotalRemaining n + r.processing_demand) / n.cpu_capacity ≤
        r.absolute_deadline := by
  simp [FogNode.admission_control_check_timebased]

theorem stampStart_remaining (now : ℚ) (r : Request) :
    (stampStart now r).remaining_demand = r.remaining_demand := by
  unfold stampStart; split <;> rfl

theorem stampStart_completion (now : ℚ) (r : Request) :
    (stampStart now r).completion_time = r.completion_time := by
  unfold stampStart; split <;> rfl

theorem stampStart_arrival (now : ℚ) (r : Request) :
    (stampStart now r).arrival_time = r.arrival_time := by
  unfold stampStart; split <;> rfl

theorem stampStart_class (now : ℚ) (r : Request) :
    (stampStart now r).priority_class = r.priority_class := by
  unfold stampStart; split <;> rfl

theorem stampStart_start (now : ℚ) (r : Request) :
    (stampStart now r).start_time = r.start_time ∨
      (r.start_time = Option.none ∧ (stampStart now r).start_time = Option.some now) := by
  unfold stampStart
  split
  · rename_i h; exact Or.inr ⟨h, rfl⟩
  · exact Or.inl rfl

theorem sumRemaining_nil : sumRemaining [] = 0 := rfl

theorem sumRemaining_cons (r : Request) (l : List Request) :
    sumRemaining (r :: l) = r.remaining_demand + sumRemaining l := by
  simp [sumRemaining]

theorem sumRemaining_append (a b : List Request) :
    sumRemaining (a ++ b) = sumRemaining a + sumRemaining b := by
  simp [sumRemaining]

/-- Sum of remaining demand is invariant under permutation. -/
theorem sumRemaining_perm {a b : List Request} (h : a.Perm b) :
    sumRemaining a = sumRemaining b :=
  List.Perm.sum_eq (List.Perm.map Request.remaining_demand h)

theorem drain_nopower (now dt cap : ℚ) (q : List Request) (h : ¬ 0 < cap) :
    drainQueue now dt cap q = (q, [], cap) := by
  cases q with
  | nil => simp [drainQueue]
  | cons r rest => simp [drainQueue, h]

/-- Unfolding of `drainQueue` on a head that can be finished this step. -/
theorem drain_cons_complete (now dt cap : ℚ) (r : Request) (rest : List Request)
    (hc : 0 < cap) (hr : r.remaining_demand ≤ cap) :
    drainQueue now dt cap (r :: rest) =
      ((drainQueue now dt (cap - r.remaining_demand) rest).1,
        { stampStart now r with
            remaining_demand := 0
            completion_time := Option.some (now + dt) } ::
          (drainQueue now dt (cap - r.remaining_demand) rest).2.1,
        (drainQueue now dt (cap - r.remaining_demand) rest).2.2) := by
  simp only [drainQueue, if_pos hc, stampStart_remaining]
  rw [if_pos hr]

/-- Unfolding of `drainQueue` on a head that exceeds the leftover budget. -/
theorem drain_cons_over (now dt cap : ℚ) (r : Request) (rest : List Request)
    (hc : 0 < cap) (hr : ¬ r.remaining_demand ≤ cap) :
    drainQueue now dt cap (r :: rest) =
      ({ stampStart now r with
          remaining_demand := r.remaining_demand - cap } :: rest, [], 0) := by
  simp only [drainQueue, if_pos hc, stampStart_remaining]
  rw [if_neg hr]

theorem drain_capOut_nonneg (now dt : ℚ) (q : List Request) :
    ∀ cap : ℚ, 0 ≤ cap → 0 ≤ (drainQueue now dt cap q).2.2 := by
  induction q with
  | nil => intro cap h; simpa [drainQueue] using h
  | cons r rest ih =>
    intro cap h
    by_cases hc : 0 < cap
    · by_cases hr : r.remaining_demand ≤ cap
      · rw [drain_cons_complete now dt cap r rest hc hr]
        exact ih (cap - r.remaining_demand) (by linarith)
      · rw [drain_cons_over now dt cap r rest hc hr]
    · rw [drain_nopower now dt cap _ hc]; exact h

theorem drain_capOut_le (now dt : ℚ) (q : List Request)
    (hn : ∀ r ∈ q, 0 ≤ r.remaining_demand) :
    ∀ cap : ℚ, (drainQueue now dt cap q).2.2 ≤ cap := by
  induction q with
  | nil => intro cap; simp [drainQueue]
  | cons r rest ih =>
    intro cap
    by_cases hc : 0 < cap
    · by_cases hr : r.remaining_demand ≤ cap
      · rw [drain_cons_complete now dt cap r rest hc hr]
        have h0 : 0 ≤ r.remaining_demand := hn r (by simp)
        have := ih (fun x hx => hn x (by simp [hx])) (cap - r.remaining_demand)
        linarith
      · rw [drain_cons_over now dt cap r rest hc hr]
        simpa using le_of_lt hc
    · rw [drain_nopower now dt cap _ hc]

theorem drain_conservation (now dt : ℚ) (q : List Request) :
    ∀ cap : ℚ,
      sumRemaining q - sumRemaining (drainQueue now dt cap q).1 =
        cap - (drainQueue now dt cap q).2.2 := by
  induction q with
  | nil => intro cap; simp [drainQueue]
  | cons r rest ih =>
    intro cap
    by_cases hc : 0 < cap
    · by_cases hr : r.remaining_demand ≤ cap
      · rw [drain_cons_complete now dt cap r rest hc hr]
        have := ih (cap - r.remaining_demand)
        simp only [sumRemaining_cons] at this ⊢
        linarith
      · rw [drain_cons_over now dt cap r rest hc hr]
        simp [sumRemaining_cons]
    · rw [drain_nopower now dt cap _ hc]
      ring

theorem drain_length (now dt : ℚ) (q : List Request) :
    ∀ cap : ℚ,
      q.length = (drainQueue now dt cap q).1.length + (drainQueue now dt cap q).2.1.length := by
  induction q with
  | nil => intro cap; simp [drainQueue]
  | cons r rest ih =>
    intro cap
    by_cases hc : 0 < cap
    · by_cases hr : r.remaining_demand ≤ cap
      · rw [drain_cons_complete now dt cap r rest hc hr]
        have := ih (cap - r.remaining_demand)
        simp only [List.length_cons]
        omega
      · rw [drain_cons_over now dt cap r rest hc hr]
        simp
    · rw [drain_nopower now dt cap _ hc]
      simp

theorem drain_completed (now dt : ℚ) (q : List Request) :
    ∀ cap : ℚ, ∀ r' ∈ (drainQueue now dt cap q).2.1,
      r'.remaining_demand = 0 ∧ r'.completion_time = Option.some (now + dt) := by
  induction q with
  | nil => intro cap r' h; simp [drainQueue] at h
  | cons r rest ih =>
    intro cap r' h
    by_cases hc : 0 < cap
    · by_cases hr : r.remaining_demand ≤ cap
      · rw [drain_cons_complete now dt cap r rest hc hr] at h
        simp only [List.mem_cons] at h
        rcases h with h | h
        · subst h; exact ⟨rfl, rfl⟩
        · exact ih (cap - r.remaining_demand) r' h
      · rw [drain_cons_over now dt cap r rest hc hr] at h
        simp at h
    · rw [drain_nopower now dt cap _ hc] at h
      simp at h

theorem drain_queued (now dt : ℚ) (q : List Request)
    (hq : ∀ r ∈ q, r.completion_time = Option.none ∧ 0 < r.remaining_demand) :
    ∀ cap : ℚ, ∀ r' ∈ (drainQueue now dt cap q).1,
      r'.completion_time = Option.none ∧ 0 < r'.remaining_demand := by
  induction q with
  | nil => intro cap r' h; simp [drainQueue] at h
  | cons r rest ih =>
    intro cap r' h
    by_cases hc : 0 < cap
    · by_cases hr : r.remaining_demand ≤ cap
      · rw [drain_cons_complete now dt cap r rest hc hr] at h
        exact ih (fun x hx => hq x (by simp [hx])) (cap - r.remaining_demand) r' h
      · rw [drain_cons_over now dt cap r rest hc hr] at h
        simp only [List.mem_cons] at h
        rcases h with h | h
        · subst h
          constructor
          · show (stampStart now r).completion_time = Option.none
            rw [stampStart_completion]; exact (hq r (by simp)).1
          · show (0:ℚ) < r.remaining_demand - cap
            push_neg at hr
            linarith
        · exact hq r' (by simp [h])
    · rw [drain_nopower now dt cap _ hc] at h
      exact hq r' h

theorem drain_leftover (now dt : ℚ) (q : List Request) :
    ∀ cap : ℚ, (drainQueue now dt cap q).1 ≠ [] → (drainQueue now dt cap q).2.2 ≤ 0 := by
  induction q with
  | nil => intro cap h; simp [drainQueue] at h
  | cons r rest ih =>
    intro cap h
    by_cases hc : 0 < cap
    · by_cases hr : r.remaining_demand ≤ cap
      · rw [drain_cons_complete now dt cap r rest hc hr] at h ⊢
        exact ih (cap - r.remaining_demand) h
      · rw [drain_cons_over now dt cap r rest hc hr]
    · rw [drain_nopower now dt cap _ hc]
      linarith

theorem selectBetterW_choice (A B C t : ℚ) (a b : Request) :
    selectBetterW A B C t a b = a ∨ selectBetterW A B C t a b = b := by
  simp only [selectBetterW]
  by_cases h1 : scoreW A B C a t < scoreW A B C b t
  · simp only [if_pos h1]; exact Or.inr trivial
  · simp only [if_neg h1]
    by_cases h2 : scoreW A B C b t = scoreW A B C a t
    · simp only [if_pos h2]
      by_cases h3 : b.absolute_deadline - t < a.absolute_deadline - t
      · simp only [if_pos h3]; exact Or.inr trivial
      · simp only [if_neg h3]
        by_cases h4 : b.absolute_deadline - t = a.absolute_deadline - t
        · simp only [if_pos h4]
          by_cases h5 : t - a.arrival_time < t - b.arrival_time
          · simp only [if_pos h5]; exact Or.inr trivial
          · simp only [if_neg h5]; exact Or.inl trivial
        · simp only [if_neg h4]; exact Or.inl trivial
    · simp only [if_neg h2]; exact Or.inl trivial

theorem foldl_choice_mem {α : Type} (f : α → α → α)
    (hf : ∀ a b, f a b = a ∨ f a b = b) :
    ∀ (l : List α) (a : α), l.foldl f a ∈ a :: l := by
  intro l
  induction l with
  | nil => intro a; simp
  | cons b l ih =>
    intro a
    rw [List.foldl_cons]
    rcases List.mem_cons.mp (ih (f a b)) with h2 | h2
    · rw [h2]
      rcases hf a b with h1 | h1 <;> rw [h1] <;> simp
    · simp [h2]

theorem selectNextW_mem {A B C t : ℚ} {q3 q2 q1 : List Request} {r : Request}
    (h : selectNextW A B C t q3 q2 q1 = Option.some r) : r ∈ q3 ++ q2 ++ q1 := by
  unfold selectNextW at h
  revert h
  cases hq : q3 ++ q2 ++ q1 with
  | nil => intro h; exact absurd h (by simp)
  | cons c rest =>
    intro h
    simp only [Option.some.injEq] at h
    have hmem := foldl_choice_mem _ (selectBetterW_choice A B C t) rest c
    rw [h] at hmem
    exact hmem

/-- A request selected by the SLA dispatcher sits in the class queue its
`priority_class` routes it to, when the queues are well formed. -/
theorem mem_proper_queue {s : SlaState} {nr : Request} (hwf : wfS s)
    (hmem : nr ∈ s.q3 ++ s.q2 ++ s.q1) :
    (nr.priority_class = 3 ∧ nr ∈ s.q3) ∨ (nr.priority_class = 2 ∧ nr ∈ s.q2) ∨
      (nr.priority_class ≠ 3 ∧ nr.priority_class ≠ 2 ∧ nr ∈ s.q1) := by
  obtain ⟨h3, h2, h1⟩ := hwf
  simp only [List.mem_append] at hmem
  rcases hmem with (h | h) | h
  · exact Or.inl ⟨h3 nr h, h⟩
  · exact Or.inr (Or.inl ⟨h2 nr h, h⟩)
  · exact Or.inr (Or.inr ⟨(h1 nr h).1, (h1 nr h).2, h⟩)

theorem sumRemaining_erase {l : List Request} {a : Request} (h : a ∈ l) :
    sumRemaining l = a.remaining_demand + sumRemaining (l.erase a) := by
  have hp := List.perm_cons_erase h
  rw [sumRemaining_perm hp, sumRemaining_cons]

theorem slaTake_eq3 (now : ℚ) (s : SlaState) (nr : Request)
    (hc : nr.priority_class = 3) :
    slaTake now nr s =
      { s with
        q3 := s.q3.erase nr
        cur := Option.some (stampStart now nr)
        curStart := Option.some now } := by
  simp only [slaTake, if_pos hc]

theorem slaTake_eq2 (now : ℚ) (s : SlaState) (nr : Request)
    (hc3 : ¬ nr.priority_class = 3) (hc : nr.priority_class = 2) :
    slaTake now nr s =
      { s with
        q2 := s.q2.erase nr
        cur := Option.some (stampStart now nr)
        curStart := Option.some now } := by
  simp only [slaTake, if_neg hc3, if_pos hc]

theorem slaTake_eq1 (now : ℚ) (s : SlaState) (nr : Request)
    (hc3 : ¬ nr.priority_class = 3) (hc2 : ¬ nr.priority_class = 2) :
    slaTake now nr s =
      { s with
        q1 := s.q1.erase nr
        cur := Option.some (stampStart now nr)
        curStart := Option.some now } := by
  simp only [slaTake, if_neg hc3, if_neg hc2]

/-- What one selection step does to the SLA dispatch state: the counted
size, total remaining demand, capacity, completed list and history are all
unchanged, and well-formedness plus nonnegativity are preserved. -/
theorem slaTake_facts (now : ℚ) {s : SlaState} {nr : Request} (hwf : wfS s)
    (hmem : nr ∈ s.q3 ++ s.q2 ++ s.q1) (hcur : s.cur = Option.none) :
    wfS (slaTake now nr s) ∧ sCount (slaTake now nr s) = sCount s ∧
      sRemaining (slaTake now nr s) = sRemaining s ∧
      (slaTake now nr s).cap = s.cap ∧ (slaTake now nr s).completed = s.completed ∧
      (slaTake now nr s).hist = s.hist ∧ (nonnegS s → nonnegS (slaTake now nr s)) := by
  rcases mem_proper_queue hwf hmem with ⟨hc, hq⟩ | ⟨hc, hq⟩ | ⟨hc3, hc2, hq⟩
  · rw [slaTake_eq3 now s nr hc]
    have hlen := List.length_erase_of_mem hq
    have hpos : 0 < s.q3.length := List.length_pos.mpr (List.ne_nil_of_mem hq)
    have hsum := sumRemaining_erase hq
    obtain ⟨h3, h2, h1⟩ := hwf
    refine ⟨⟨fun x hx => h3 x (List.mem_of_mem_erase hx), h2, h1⟩, ?_, ?_, rfl, rfl, rfl, ?_⟩
    · simp only [sCount, curCount, hcur, hlen]
      omega
    · simp only [sRemaining, curRem, hcur, stampStart_remaining]
      linarith
    · rintro ⟨n3, n2, n1, _⟩
      refine ⟨fun x hx => n3 x (List.mem_of_mem_erase hx), n2, n1, fun x hx => ?_⟩
      simp only [Option.some.injEq] at hx
      rw [← hx, stampStart_remaining]
      exact n3 nr hq
  · have hc3 : ¬ nr.priority_class = 3 := by omega
    rw [slaTake_eq2 now s nr hc3 hc]
    have hlen := List.length_erase_of_mem hq
    have hpos : 0 < s.q2.length := List.length_pos.mpr (List.ne_nil_of_mem hq)
    have hsum := sumRemaining_erase hq
    obtain ⟨h3, h2, h1⟩ := hwf
    refine ⟨⟨h3, fun x hx => h2 x (List.mem_of_mem_erase hx), h1⟩, ?_, ?_, rfl, rfl, rfl, ?_⟩
    · simp only [sCount, curCount, hcur, hlen]
      omega
    · simp only [sRemaining, curRem, hcur, stampStart_remaining]
      linarith
    · rintro ⟨n3, n2, n1, _⟩
      refine ⟨n3, fun x hx => n2 x (List.mem_of_mem_erase hx), n1, fun x hx => ?_⟩
      simp only [Option.some.injEq] at hx
      rw [← hx, stampStart_remaining]
      exact n2 nr hq
  · rw [slaTake_eq1 now s nr hc3 hc2]
    have hlen := List.length_erase_of_mem hq
    have hpos : 0 < s.q1.length := List.length_pos.mpr (List.ne_nil_of_mem hq)
    have hsum := sumRemaining_erase hq
    obtain ⟨h3, h2, h1⟩ := hwf
    refine ⟨⟨h3, h2, fun x hx => h1 x (List.mem_of_mem_erase hx)⟩, ?_, ?_, rfl, rfl, rfl, ?_⟩
    · simp only [sCount, curCount, hcur, hlen]
      omega
    · simp only [sRemaining, curRem, hcur, stampStart_remaining]
      linarith
    · rintro ⟨n3, n2, n1, _⟩
      refine ⟨n3, n2, fun x hx => n1 x (List.mem_of_mem_erase hx), fun x hx => ?_⟩
      simp only [Option.some.injEq] at hx
      rw [← hx, stampStart_remaining]
      exact n1 nr hq

theorem slaLoop_zero (A B C now dt : ℚ) (s : SlaState) :
    slaLoop A B C now dt 0 s = s := rfl

theorem slaLoop_nocap (A B C now dt : ℚ) (fuel : Nat) (s : SlaState)
    (h : ¬ 0 < s.cap) : slaLoop A B C now dt (fuel + 1) s = s := by
  simp only [slaLoop, if_neg h]

theorem slaLoop_none_stop (A B C now dt : ℚ) (fuel : Nat) (s : SlaState)
    (hcap : 0 < s.cap) (hcur : s.cur = Option.none)
    (hsel : selectNextW A B C now s.q3 s.q2 s.q1 = Option.none) :
    slaLoop A B C now dt (fuel + 1) s = s := by
  simp only [slaLoop, if_pos hcap, hcur, hsel]

theorem slaLoop_none_take (A B C now dt : ℚ) (fuel : Nat) (s : SlaState) (nr : Request)
    (hcap : 0 < s.cap) (hcur : s.cur = Option.none)
    (hsel : selectNextW A B C now s.q3 s.q2 s.q1 = Option.some nr) :
    slaLoop A B C now dt (fuel + 1) s = slaLoop A B C now dt fuel (slaTake now nr s) := by
  simp only [slaLoop, if_pos hcap, hcur, hsel]

theorem slaLoop_over (A B C now dt : ℚ) (fuel : Nat) (s : SlaState) (r : Request)
    (hcap : 0 < s.cap) (hcur : s.cur = Option.some r)
    (hrem : ¬ r.remaining_demand ≤ s.cap) :
    slaLoop A B C now dt (fuel + 1) s =
      { s with
        cap := 0
        cur := Option.some { r with remaining_demand := r.remaining_demand - s.cap } } := by
  simp only [slaLoop, if_pos hcap, hcur, if_neg hrem]

theorem slaLoop_complete_stop (A B C now dt : ℚ) (fuel : Nat) (s : SlaState) (r : Request)
    (hcap : 0 < s.cap) (hcur : s.cur = Option.some r)
    (hrem : r.remaining_demand ≤ s.cap)
    (hsel : selectNextW A B C now s.q3 s.q2 s.q1 = Option.none) :
    slaLoop A B C now dt (fuel + 1) s = completeCur now dt r s := by
  simp only [slaLoop, completeCur, if_pos hcap, hcur, if_pos hrem, hsel]

theorem slaLoop_complete_take (A B C now dt : ℚ) (fuel : Nat) (s : SlaState)
    (r nr : Request)
    (hcap : 0 < s.cap) (hcur : s.cur = Option.some r)
    (hrem : r.remaining_demand ≤ s.cap)
    (hsel : selectNextW A B C now s.q3 s.q2 s.q1 = Option.some nr) :
    slaLoop A B C now dt (fuel + 1) s =
      slaLoop A B C now dt fuel (slaTake now nr (completeCur now dt r s)) := by
  simp only [slaLoop, completeCur, if_pos hcap, hcur, if_pos hrem, hsel]

theorem completeCur_queues (now dt : ℚ) (r : Request) (s : SlaState) :
    (completeCur now dt r s).q3 = s.q3 ∧ (completeCur now dt r s).q2 = s.q2 ∧
      (completeCur now dt r s).q1 = s.q1 ∧ (completeCur now dt r s).cur = Option.none ∧
      (completeCur now dt r s).cap = s.cap - r.remaining_demand ∧
      (completeCur now dt r s).completed = s.completed ++
        [{ r with remaining_demand := 0, completion_time := Option.some (now + dt) }] :=
  ⟨rfl, rfl, rfl, rfl, rfl, rfl⟩

theorem completeCur_wf (now dt : ℚ) (r : Request) (s : SlaState) (hwf : wfS s) :
    wfS (completeCur now dt r s) := hwf

theorem completeCur_count (now dt : ℚ) (r : Request) (s : SlaState)
    (hcur : s.cur = Option.some r) :
    sCount (completeCur now dt r s) + 1 = sCount s := by
  simp [completeCur, sCount, curCount, hcur]

theorem completeCur_len (now dt : ℚ) (r : Request) (s : SlaState) :
    (completeCur now dt r s).completed.length = s.completed.length + 1 := by
  simp [completeCur]

theorem completeCur_rem (now dt : ℚ) (r : Request) (s : SlaState)
    (hcur : s.cur = Option.some r) :
    sRemaining (completeCur now dt r s) + r.remaining_demand = sRemaining s := by
  simp only [completeCur, sRemaining, curRem, hcur]
  ring

theorem completeCur_nonneg (now dt : ℚ) (r : Request) (s : SlaState)
    (hn : nonnegS s) : nonnegS (completeCur now dt r s) := by
  obtain ⟨n3, n2, n1, _⟩ := hn
  exact ⟨n3, n2, n1, fun x hx => by simp [completeCur] at hx⟩

/-- The invariants carried by the SLA dispatch loop, for every fuel value:
well-formedness is preserved; completed-plus-held request count is
conserved; the total remaining demand drops by exactly the consumed
capacity; capacity stays within `[0, initial]` (under nonnegative demand);
and every newly completed request has zero remaining demand and completion
time `now + dt`. -/
theorem slaLoop_invariants (A B C now dt : ℚ) :
    ∀ (fuel : Nat) (s : SlaState), wfS s →
      wfS (slaLoop A B C now dt fuel s) ∧
      (slaLoop A B C now dt fuel s).completed.length + sCount (slaLoop A B C now dt fuel s) =
        s.completed.length + sCount s ∧
      sRemaining s - sRemaining (slaLoop A B C now dt fuel s) =
        s.cap - (slaLoop A B C now dt fuel s).cap ∧
      (nonnegS s →
        nonnegS (slaLoop A B C now dt fuel s) ∧
          (0 ≤ s.cap →
            0 ≤ (slaLoop A B C now dt fuel s).cap ∧
              (slaLoop A B C now dt fuel s).cap ≤ s.cap)) ∧
      (∀ r' ∈ (slaLoop A B C now dt fuel s).completed,
        r' ∈ s.completed ∨
          (r'.remaining_demand = 0 ∧ r'.completion_time = Option.some (now + dt))) := by
  intro fuel
  induction fuel with
  | zero =>
    intro s hwf
    rw [slaLoop_zero]
    exact ⟨hwf, rfl, by ring, fun hn => ⟨hn, fun hc => ⟨hc, le_refl _⟩⟩, fun r' h => Or.inl h⟩
  | succ fuel ih =>
    intro s hwf
    by_cases hcap : 0 < s.cap
    · cases hcur : s.cur with
      | none =>
        cases hsel : selectNextW A B C now s.q3 s.q2 s.q1 with
        | none =>
          rw [slaLoop_none_stop A B C now dt fuel s hcap hcur hsel]
          exact ⟨hwf, rfl, by ring, fun hn => ⟨hn, fun hc => ⟨hc, le_refl _⟩⟩,
            fun r' h => Or.inl h⟩
        | some nr =>
          rw [slaLoop_none_take A B C now dt fuel s nr hcap hcur hsel]
          obtain ⟨tw, tc, trem, tcap, tcomp, thist, tnn⟩ :=
            slaTake_facts now hwf (selectNextW_mem hsel) hcur
          obtain ⟨w', c', rem', nn', comp'⟩ := ih (slaTake now nr s) tw
          refine ⟨w', by rw [c', tc, tcomp], by rw [← trem, ← tcap]; exact rem', ?_, ?_⟩
          · intro hn
            obtain ⟨nn1, nn2⟩ := nn' (tnn hn)
            refine ⟨nn1, fun hc => ?_⟩
            rw [← tcap] at hc
            obtain ⟨b1, b2⟩ := nn2 hc
            rw [tcap] at b2
            exact ⟨b1, b2⟩
          · intro r' h
            rcases comp' r' h with h | h
            · rw [tcomp] at h; exact Or.inl h
            · exact Or.inr h
      | some r =>
        by_cases hrem : r.remaining_demand ≤ s.cap
        · cases hsel : selectNextW A B C now s.q3 s.q2 s.q1 with
          | none =>
            rw [slaLoop_complete_stop A B C now dt fuel s r hcap hcur hrem hsel]
            refine ⟨completeCur_wf now dt r s hwf, ?_, ?_, ?_, ?_⟩
            · have h1 := completeCur_count now dt r s hcur
              have h2 := completeCur_len now dt r s
              omega
            · have h1 := completeCur_rem now dt r s hcur
              have h2 := (completeCur_queues now dt r s).2.2.2.2.1
              rw [h2]
              linarith
            · intro hn
              have hr0 : 0 ≤ r.remaining_demand := hn.2.2.2 r hcur
              refine ⟨completeCur_nonneg now dt r s hn, fun hc => ?_⟩
              rw [(completeCur_queues now dt r s).2.2.2.2.1]
              constructor <;> linarith
            · intro r' h
              rw [(completeCur_queues now dt r s).2.2.2.2.2] at h
              simp only [List.mem_append, List.mem_cons, List.not_mem_nil, or_false] at h
              rcases h with h | h
              · exact Or.inl h
              · subst h; exact Or.inr ⟨rfl, rfl⟩
          | some nr =>
            rw [slaLoop_complete_take A B C now dt fuel s r nr hcap hcur hrem hsel]
            have hwfX : wfS (completeCur now dt r s) := completeCur_wf now dt r s hwf
            have hmemX : nr ∈ (completeCur now dt r s).q3 ++ (completeCur now dt r s).q2 ++
                (completeCur now dt r s).q1 := selectNextW_mem hsel
            obtain ⟨tw, tc, trem, tcap, tcomp, thist, tnn⟩ :=
              slaTake_facts now hwfX hmemX rfl
            obtain ⟨w', c', rem', nn', comp'⟩ := ih (slaTake now nr (completeCur now dt r s)) tw
            refine ⟨w', ?_, ?_, ?_, ?_⟩
            · rw [c', tc, tcomp]
              have h1 := completeCur_count now dt r s hcur
              have h2 := completeCur_len now dt r s
              omega
            · rw [trem, tcap] at rem'
              have h1 := completeCur_rem now dt r s hcur
              have h2 := (completeCur_queues now dt r s).2.2.2.2.1
              rw [h2] at rem'
              linarith
            · intro hn
              have hr0 : 0 ≤ r.remaining_demand := hn.2.2.2 r hcur
              obtain ⟨nn1, nn2⟩ := nn' (tnn (completeCur_nonneg now dt r s hn))
              refine ⟨nn1, fun hc => ?_⟩
              have hXcap : (0:ℚ) ≤ (completeCur now dt r s).cap := by
                rw [(completeCur_queues now dt r s).2.2.2.2.1]
                linarith
              rw [← tcap] at hXcap
              obtain ⟨b1, b2⟩ := nn2 hXcap
              rw [tcap, (completeCur_queues now dt r s).2.2.2.2.1] at b2
              exact ⟨b1, by linarith⟩
            · intro r' h
              rcases comp' r' h with h | h
              · rw [tcomp, (completeCur_queues now dt r s).2.2.2.2.2] at h
                simp only [List.mem_append, List.mem_cons, List.not_mem_nil, or_false] at h
                rcases h with h | h
                · exact Or.inl h
                · subst h; exact Or.inr ⟨rfl, rfl⟩
              · exact Or.inr h
        · rw [slaLoop_over A B C now dt fuel s r hcap hcur hrem]
          refine ⟨hwf, ?_, ?_, ?_, ?_⟩
          · simp [sCount, curCount, hcur]
          · simp only [sRemaining, curRem, hcur]
            ring
          · rintro ⟨n3, n2, n1, nc⟩
            refine ⟨⟨n3, n2, n1, fun x hx => ?_⟩, fun hc => ⟨le_refl _, hc⟩⟩
            simp only [Option.some.injEq] at hx
            rw [← hx]
            show (0:ℚ) ≤ r.remaining_demand - s.cap
            push_neg at hrem
            linarith
          · intro r' h
            exact Or.inl h
    · rw [slaLoop_nocap A B C now dt fuel s hcap]
      exact ⟨hwf, rfl, by ring, fun hn => ⟨hn, fun hc => ⟨hc, le_refl _⟩⟩, fun r' h => Or.inl h⟩


theorem preemptMaybe_fields (n : FogNode) (r : Request) :
    (preemptMaybe n r).scheduler = n.scheduler ∧ (preemptMaybe n r).queue = n.queue ∧
      (preemptMaybe n r).emergency_queue = n.emergency_queue ∧
      (preemptMaybe n r).normal_queue = n.normal_queue ∧
      (preemptMaybe n r).priority_queue_3 = n.priority_queue_3 ∧
      (preemptMaybe n r).priority_queue_2 = n.priority_queue_2 ∧
      (preemptMaybe n r).priority_queue_1 = n.priority_queue_1 ∧
      (preemptMaybe n r).max_queue_length = n.max_queue_length ∧
      (preemptMaybe n r).link_capacity = n.link_capacity ∧
      (preemptMaybe n r).current_link_load = n.current_link_load ∧
      (preemptMaybe n r).cpu_capacity = n.cpu_capacity := by
  unfold preemptMaybe
  cases hcur : n.current_request with
  | none => exact ⟨rfl, rfl, rfl, rfl, rfl, rfl, rfl, rfl, rfl, rfl, rfl⟩
  | some cur =>
    dsimp only
    split
    · split_ifs <;> exact ⟨rfl, rfl, rfl, rfl, rfl, rfl, rfl, rfl, rfl, rfl, rfl⟩
    · exact ⟨rfl, rfl, rfl, rfl, rfl, rfl, rfl, rfl, rfl, rfl, rfl⟩

theorem preemptMaybe_dynCount (n : FogNode) (r : Request)
    (hne : ¬ (if r.priority_class = 3 then n.dynamic_queue_3
      else if r.priority_class = 2 then n.dynamic_queue_2 else n.dynamic_queue_1) = []) :
    dynCount (preemptMaybe n r) = dynCount n := by
  unfold preemptMaybe
  cases hcur : n.current_request with
  | none => rfl
  | some cur =>
    dsimp only
    split
    · by_cases hr3 : r.priority_class = 3
      · rw [if_pos hr3] at hne
        have hp := List.length_pos.mpr hne
        by_cases hc3 : cur.priority_class = 3
        · split_ifs <;>
            simp [dynCount, curCount, hcur, List.length_dropLast, if_pos hr3, if_pos hc3] <;>
            omega
        · by_cases hc2 : cur.priority_class = 2 <;> split_ifs <;>
            simp [dynCount, curCount, hcur, List.length_dropLast] <;> omega
      · by_cases hr2 : r.priority_class = 2
        · rw [if_neg hr3, if_pos hr2] at hne
          have hp := List.length_pos.mpr hne
          by_cases hc3 : cur.priority_class = 3
          · split_ifs <;> simp [dynCount, curCount, hcur, List.length_dropLast] <;> omega
          · by_cases hc2 : cur.priority_class = 2 <;> split_ifs <;>
              simp [dynCount, curCount, hcur, List.length_dropLast] <;> omega
        · rw [if_neg hr3, if_neg hr2] at hne
          have hp := List.length_pos.mpr hne
          by_cases hc3 : cur.priority_class = 3
          · split_ifs <;> simp [dynCount, curCount, hcur, List.length_dropLast] <;> omega
          · by_cases hc2 : cur.priority_class = 2 <;> split_ifs <;>
              simp [dynCount, curCount, hcur, List.length_dropLast] <;> omega
    · simp [dynCount, curCount, hcur]

theorem forall_mem_dropLast {α : Type} {P : α → Prop} {l : List α}
    (h : ∀ x ∈ l, P x) : ∀ x ∈ l.dropLast, P x :=
  fun x hx => h x (List.dropLast_subset _ hx)

theorem forall_mem_cons_of {α : Type} {P : α → Prop} {a : α} {l : List α}
    (ha : P a) (h : ∀ x ∈ l, P x) : ∀ x ∈ a :: l, P x := by
  intro x hx
  rcases List.mem_cons.mp hx with h' | h'
  · exact h' ▸ ha
  · exact h x h'

theorem preemptMaybe_wf (n : FogNode) (r : Request) (hwf : nodeWf n) :
    nodeWf (preemptMaybe n r) := by
  unfold preemptMaybe
  cases hcur : n.current_request with
  | none => exact hwf
  | some cur =>
    dsimp only
    obtain ⟨h3, h2, h1⟩ := hwf
    split
    · by_cases hc3 : cur.priority_class = 3
      · rw [if_pos hc3]
        by_cases hr3 : r.priority_class = 3
        · rw [if_pos hr3]
          split <;>
            exact ⟨forall_mem_dropLast (forall_mem_cons_of hc3 h3), h2, h1⟩
        · rw [if_neg hr3]
          by_cases hr2 : r.priority_class = 2
          · rw [if_pos hr2]
            split <;> exact ⟨forall_mem_cons_of hc3 h3, forall_mem_dropLast h2, h1⟩
          · rw [if_neg hr2]
            split <;> exact ⟨forall_mem_cons_of hc3 h3, h2, forall_mem_dropLast h1⟩
      · rw [if_neg hc3]
        by_cases hc2 : cur.priority_class = 2
        · rw [if_pos hc2]
          by_cases hr3 : r.priority_class = 3
          · rw [if_pos hr3]
            split <;>
              exact ⟨forall_mem_dropLast h3, forall_mem_cons_of hc2 h2, h1⟩
          · rw [if_neg hr3]
            by_cases hr2 : r.priority_class = 2
            · rw [if_pos hr2]
              split <;>
                exact ⟨h3, forall_mem_dropLast (forall_mem_cons_of hc2 h2), h1⟩
            · rw [if_neg hr2]
              split <;> exact ⟨h3, forall_mem_cons_of hc2 h2, forall_mem_dropLast h1⟩
        · rw [if_neg hc2]
          by_cases hr3 : r.priority_class = 3
          · rw [if_pos hr3]
            split <;>
              exact ⟨forall_mem_dropLast h3, h2, forall_mem_cons_of ⟨hc3, hc2⟩ h1⟩
          · rw [if_neg hr3]
            by_cases hr2 : r.priority_class = 2
            · rw [if_pos hr2]
              split <;>
                exact ⟨h3, forall_mem_dropLast h2, forall_mem_cons_of ⟨hc3, hc2⟩ h1⟩
            · rw [if_neg hr2]
              split <;>
                exact ⟨h3, h2, forall_mem_dropLast (forall_mem_cons_of ⟨hc3, hc2⟩ h1)⟩
    · exact ⟨h3, h2, h1⟩

theorem addToDynamicQueue_wf (n : FogNode) (r : Request) (hwf : nodeWf n) :
    nodeWf (addToDynamicQueue n r) := by
  obtain ⟨h3, h2, h1⟩ := hwf
  unfold addToDynamicQueue
  by_cases hr3 : r.priority_class = 3
  · rw [if_pos hr3]
    refine ⟨fun x hx => ?_, h2, h1⟩
    rcases List.mem_append.mp hx with h | h
    · exact h3 x h
    · simp only [List.mem_singleton] at h; exact h ▸ hr3
  · rw [if_neg hr3]
    by_cases hr2 : r.priority_class = 2
    · rw [if_pos hr2]
      refine ⟨h3, fun x hx => ?_, h1⟩
      rcases List.mem_append.mp hx with h | h
      · exact h2 x h
      · simp only [List.mem_singleton] at h; exact h ▸ hr2
    · rw [if_neg hr2]
      refine ⟨h3, h2, fun x hx => ?_⟩
      rcases List.mem_append.mp hx with h | h
      · exact h1 x h
      · simp only [List.mem_singleton] at h; exact h ▸ ⟨hr3, hr2⟩

theorem addToDynamicQueue_fields (n : FogNode) (r : Request) :
    (addToDynamicQueue n r).scheduler = n.scheduler ∧
      (addToDynamicQueue n r).current_request = n.current_request ∧
      dynCount (addToDynamicQueue n r) = dynCount n + 1 ∧
      ¬ (if r.priority_class = 3 then (addToDynamicQueue n r).dynamic_queue_3
        else if r.priority_class = 2 then (addToDynamicQueue n r).dynamic_queue_2
        else (addToDynamicQueue n r).dynamic_queue_1) = [] := by
  unfold addToDynamicQueue
  by_cases hr3 : r.priority_class = 3
  · rw [if_pos hr3]
    refine ⟨rfl, rfl, by simp [dynCount, curCount]; omega, by rw [if_pos hr3]; simp⟩
  · rw [if_neg hr3]
    by_cases hr2 : r.priority_class = 2
    · rw [if_pos hr2]
      refine ⟨rfl, rfl, by simp [dynCount, curCount]; omega, by rw [if_neg hr3, if_pos hr2]; simp⟩
    · rw [if_neg hr2]
      refine ⟨rfl, rfl, by simp [dynCount, curCount]; omega,
        by rw [if_neg hr3, if_neg hr2]; simp⟩

theorem finishAdmit_snd (n : FogNode) (r : Request) :
    (finishAdmit n r).2 = EnqueueResult.admitted := rfl

theorem finishAdmit_fields (n : FogNode) (r : Request) :
    (finishAdmit n r).1.scheduler = n.scheduler ∧ (finishAdmit n r).1.queue = n.queue ∧
      (finishAdmit n r).1.emergency_queue = n.emergency_queue ∧
      (finishAdmit n r).1.normal_queue = n.normal_queue ∧
      (finishAdmit n r).1.priority_queue_3 = n.priority_queue_3 ∧
      (finishAdmit n r).1.priority_queue_2 = n.priority_queue_2 ∧
      (finishAdmit n r).1.priority_queue_1 = n.priority_queue_1 ∧
      (finishAdmit n r).1.dynamic_queue_3 = n.dynamic_queue_3 ∧
      (finishAdmit n r).1.dynamic_queue_2 = n.dynamic_queue_2 ∧
      (finishAdmit n r).1.dynamic_queue_1 = n.dynamic_queue_1 ∧
      (finishAdmit n r).1.current_request = n.current_request := by
  unfold finishAdmit
  cases n.link_capacity <;>
    exact ⟨rfl, rfl, rfl, rfl, rfl, rfl, rfl, rfl, rfl, rfl, rfl⟩

theorem get_total_fifo (n : FogNode) (hs : n.scheduler = Scheduler.fifo) :
    n.get_total_queue_length = n.queue.length := by
  simp [FogNode.get_total_queue_length, hs]

theorem get_total_ef (n : FogNode) (hs : n.scheduler = Scheduler.emergencyFirst) :
    n.get_total_queue_length = n.emergency_queue.length + n.normal_queue.length := by
  simp [FogNode.get_total_queue_length, hs]

theorem get_total_sp (n : FogNode) (hs : n.scheduler = Scheduler.staticPriority) :
    n.get_total_queue_length =
      n.priority_queue_3.length + n.priority_queue_2.length + n.priority_queue_1.length := by
  simp [FogNode.get_total_queue_length, hs]

theorem get_total_sla (n : FogNode) (hs : n.scheduler = Scheduler.slaDwpFog) :
    n.get_total_queue_length = dynCount n := by
  simp only [FogNode.get_total_queue_length, hs, dynCount, curCount]

theorem finishAdmit_wf (m : FogNode) (r : Request) (h : nodeWf m) :
    nodeWf (finishAdmit m r).1 := by
  unfold finishAdmit; cases m.link_capacity <;> exact h

theorem finishAdmit_total (m : FogNode) (r : Request) :
    (finishAdmit m r).1.get_total_queue_length = m.get_total_queue_length := by
  unfold finishAdmit; cases m.link_capacity <;> rfl

theorem finishAdmit_sched (m : FogNode) (r : Request) :
    (finishAdmit m r).1.scheduler = m.scheduler := by
  unfold finishAdmit; cases m.link_capacity <;> rfl

/-- Packaging of the facts about an admitted path that ends in the shared
link-load tail, relative to the original node `n`. -/
theorem enqueue_finish_facts (n m : FogNode) (r : Request) (target : Scheduler)
    (hsch : m.scheduler = target)
    (hwfp : nodeWf n → nodeWf m)
    (hcount : m.get_total_queue_length = n.get_total_queue_length + 1) :
    (finishAdmit m r).1.scheduler = target ∧
      (nodeWf n → nodeWf (finishAdmit m r).1) ∧
      ((finishAdmit m r).2 = EnqueueResult.admitted →
        (finishAdmit m r).1.get_total_queue_length = n.get_total_queue_length + 1) ∧
      ((finishAdmit m r).2 ≠ EnqueueResult.admitted →
        (finishAdmit m r).1.get_total_queue_length = n.get_total_queue_length) :=
  ⟨(finishAdmit_sched m r).trans hsch, fun h => finishAdmit_wf m r (hwfp h),
   fun _ => (finishAdmit_total m r).trans hcount,
   fun h => absurd (finishAdmit_snd m r) h⟩

/-- The facts about `enqueue_request` that the conservation argument uses:
the scheduler is unchanged, well-formedness of the SLA class queues is
preserved, the admitted outcome grows the combined queue length by exactly
one, and every rejecting outcome leaves it unchanged. -/
theorem enqueue_request_facts (n : FogNode) (r : Request) (dt : ℚ) :
    (n.enqueue_request r dt).1.scheduler = n.scheduler ∧
      (nodeWf n → nodeWf (n.enqueue_request r dt).1) ∧
      ((n.enqueue_request r dt).2 = EnqueueResult.admitted →
        (n.enqueue_request r dt).1.get_total_queue_length = n.get_total_queue_length + 1) ∧
      ((n.enqueue_request r dt).2 ≠ EnqueueResult.admitted →
        (n.enqueue_request r dt).1.get_total_queue_length = n.get_total_queue_length) := by
  unfold FogNode.enqueue_request
  dsimp only
  split
  · exact ⟨rfl, fun h => h, fun h => absurd h (by simp), fun _ => rfl⟩
  · cases hs : n.scheduler with
    | slaDwpFog =>
      by_cases hchk : n.admission_control_check_timebased r = true
      · rw [if_pos hchk]
        obtain ⟨as, ac, acount, ane⟩ := addToDynamicQueue_fields n r
        obtain ⟨ps, _, _, _, _, _, _, _, _, _, _⟩ :=
          preemptMaybe_fields (addToDynamicQueue n r) r
        have pcount := preemptMaybe_dynCount (addToDynamicQueue n r) r ane
        refine ⟨?_, ?_, fun _ => ?_, fun h => absurd rfl h⟩
        · show (preemptMaybe (addToDynamicQueue n r) r).scheduler = Scheduler.slaDwpFog
          rw [ps, as]; exact hs
        · intro hwf
          exact preemptMaybe_wf _ r (addToDynamicQueue_wf n r hwf)
        · show (preemptMaybe (addToDynamicQueue n r) r).get_total_queue_length =
            n.get_total_queue_length + 1
          rw [get_total_sla _ (by rw [ps, as]; exact hs), get_total_sla n hs, pcount, acount]
      · rw [if_neg hchk]
        refine ⟨rfl, fun h => h, fun h => EnqueueResult.noConfusion h, fun _ => ?_⟩
        rw [get_total_sla n hs]
        exact get_total_sla _ rfl
    | staticPriority =>
      by_cases hr3 : r.priority_class = 3
      · rw [if_pos hr3]
        refine enqueue_finish_facts n _ r _ rfl (fun h => h) ?_
        rw [get_total_sp _ rfl, get_total_sp n hs]
        simp only [List.length_append, List.length_cons, List.length_nil]
        omega
      · rw [if_neg hr3]
        by_cases hr2 : r.priority_class = 2
        · rw [if_pos hr2]
          refine enqueue_finish_facts n _ r _ rfl (fun h => h) ?_
          rw [get_total_sp _ rfl, get_total_sp n hs]
          simp only [List.length_append, List.length_cons, List.length_nil]
          omega
        · rw [if_neg hr2]
          refine enqueue_finish_facts n _ r _ rfl (fun h => h) ?_
          rw [get_total_sp _ rfl, get_total_sp n hs]
          simp only [List.length_append, List.length_cons, List.length_nil]
          omega
    | emergencyFirst =>
      by_cases he : r.is_emergency
      · rw [if_pos he]
        refine enqueue_finish_facts n _ r _ rfl (fun h => h) ?_
        rw [get_total_ef _ rfl, get_total_ef n hs]
        simp only [List.length_append, List.length_cons, List.length_nil]
        omega
      · rw [if_neg he]
        refine enqueue_finish_facts n _ r _ rfl (fun h => h) ?_
        rw [get_total_ef _ rfl, get_total_ef n hs]
        simp only [List.length_append, List.length_cons, List.length_nil]
        omega
    | fifo =>
      by_cases hq : optTest (fun m => decide (m ≤ n.queue.length)) n.max_queue_length = true
      · rw [if_pos hq]
        exact ⟨hs, fun h => h, fun h => EnqueueResult.noConfusion h, fun _ => rfl⟩
      · rw [if_neg hq]
        refine enqueue_finish_facts n _ r _ rfl (fun h => h) ?_
        rw [get_total_fifo _ rfl, get_total_fifo n hs]
        simp only [List.length_append, List.length_cons, List.length_nil]

theorem slaTake_pos (now : ℚ) {s : SlaState} {nr : Request}
    (hp : posS s) (hmem : nr ∈ s.q3 ++ s.q2 ++ s.q1) :
    posS (slaTake now nr s) := by
  obtain ⟨hq, _⟩ := hp
  have hnr := hq nr hmem
  have hcur : ∀ x : Request, Option.some (stampStart now nr) = Option.some x →
      x.completion_time = Option.none ∧ 0 < x.remaining_demand := by
    intro x hx
    simp only [Option.some.injEq] at hx
    rw [← hx, stampStart_completion, stampStart_remaining]
    exact hnr
  unfold slaTake
  by_cases h3 : nr.priority_class = 3
  · rw [if_pos h3]
    refine ⟨fun x hx => hq x ?_, hcur⟩
    simp only [List.mem_append] at hx ⊢
    rcases hx with (hx | hx) | hx
    · exact Or.inl (Or.inl (List.mem_of_mem_erase hx))
    · exact Or.inl (Or.inr hx)
    · exact Or.inr hx
  · rw [if_neg h3]
    by_cases h2 : nr.priority_class = 2
    · rw [if_pos h2]
      refine ⟨fun x hx => hq x ?_, hcur⟩
      simp only [List.mem_append] at hx ⊢
      rcases hx with (hx | hx) | hx
      · exact Or.inl (Or.inl hx)
      · exact Or.inl (Or.inr (List.mem_of_mem_erase hx))
      · exact Or.inr hx
    · rw [if_neg h2]
      refine ⟨fun x hx => hq x ?_, hcur⟩
      simp only [List.mem_append] at hx ⊢
      rcases hx with (hx | hx) | hx
      · exact Or.inl (Or.inl hx)
      · exact Or.inl (Or.inr hx)
      · exact Or.inr (List.mem_of_mem_erase hx)

/-- Requests held by the SLA dispatch loop stay unfinished — no completion
stamp and positive remaining demand — at every fuel. -/
theorem slaLoop_pos (A B C now dt : ℚ) :
    ∀ (fuel : Nat) (s : SlaState), posS s → posS (slaLoop A B C now dt fuel s) := by
  intro fuel
  induction fuel with
  | zero => intro s hp; rw [slaLoop_zero]; exact hp
  | succ fuel ih =>
    intro s hp
    by_cases hcap : 0 < s.cap
    · cases hcur : s.cur with
      | none =>
        cases hsel : selectNextW A B C now s.q3 s.q2 s.q1 with
        | none => rw [slaLoop_none_stop A B C now dt fuel s hcap hcur hsel]; exact hp
        | some nr =>
          rw [slaLoop_none_take A B C now dt fuel s nr hcap hcur hsel]
          exact ih _ (slaTake_pos now hp (selectNextW_mem hsel))
      | some r =>
        by_cases hrem : r.remaining_demand ≤ s.cap
        · cases hsel : selectNextW A B C now s.q3 s.q2 s.q1 with
          | none =>
            rw [slaLoop_complete_stop A B C now dt fuel s r hcap hcur hrem hsel]
            exact ⟨hp.1, fun x hx => by simp [completeCur] at hx⟩
          | some nr =>
            rw [slaLoop_complete_take A B C now dt fuel s r nr hcap hcur hrem hsel]
            refine ih _ (slaTake_pos now ?_ (selectNextW_mem hsel))
            exact ⟨hp.1, fun x hx => by simp [completeCur] at hx⟩
        · rw [slaLoop_over A B C now dt fuel s r hcap hcur hrem]
          refine ⟨hp.1, fun x hx => ?_⟩
          simp only [Option.some.injEq] at hx
          obtain ⟨hcn, _⟩ := hp.2 r hcur
          rw [← hx]
          refine ⟨hcn, ?_⟩
          show (0:ℚ) < r.remaining_demand - s.cap
          push_neg at hrem
          linarith
    · rw [slaLoop_nocap A B C now dt fuel s hcap]; exact hp

theorem update_sla_weights_window_fields (t : ℚ) (n : FogNode) :
    (n.update_sla_weights_window t).scheduler = n.scheduler ∧
      (n.update_sla_weights_window t).queue = n.queue ∧
      (n.update_sla_weights_window t).emergency_queue = n.emergency_queue ∧
      (n.update_sla_weights_window t).normal_queue = n.normal_queue ∧
      (n.update_sla_weights_window t).priority_queue_3 = n.priority_queue_3 ∧
      (n.update_sla_weights_window t).priority_queue_2 = n.priority_queue_2 ∧
      (n.update_sla_weights_window t).priority_queue_1 = n.priority_queue_1 ∧
      (n.update_sla_weights_window t).dynamic_queue_3 = n.dynamic_queue_3 ∧
      (n.update_sla_weights_window t).dynamic_queue_2 = n.dynamic_queue_2 ∧
      (n.update_sla_weights_window t).dynamic_queue_1 = n.dynamic_queue_1 ∧
      (n.update_sla_weights_window t).current_request = n.current_request ∧
      (n.update_sla_weights_window t).current_request_start_time =
        n.current_request_start_time ∧
      (n.update_sla_weights_window t).completed_history = n.completed_history ∧
      (n.update_sla_weights_window t).cpu_capacity = n.cpu_capacity := by
  unfold FogNode.update_sla_weights_window
  dsimp only
  split <;>
    exact ⟨rfl, rfl, rfl, rfl, rfl, rfl, rfl, rfl, rfl, rfl, rfl, rfl, rfl, rfl⟩

theorem maybeWindowUpdate_fields (t : ℚ) (n : FogNode) :
    (maybeWindowUpdate t n).scheduler = n.scheduler ∧
      (maybeWindowUpdate t n).queue = n.queue ∧
      (maybeWindowUpdate t n).emergency_queue = n.emergency_queue ∧
      (maybeWindowUpdate t n).normal_queue = n.normal_queue ∧
      (maybeWindowUpdate t n).priority_queue_3 = n.priority_queue_3 ∧
      (maybeWindowUpdate t n).priority_queue_2 = n.priority_queue_2 ∧
      (maybeWindowUpdate t n).priority_queue_1 = n.priority_queue_1 ∧
      (maybeWindowUpdate t n).dynamic_queue_3 = n.dynamic_queue_3 ∧
      (maybeWindowUpdate t n).dynamic_queue_2 = n.dynamic_queue_2 ∧
      (maybeWindowUpdate t n).dynamic_queue_1 = n.dynamic_queue_1 ∧
      (maybeWindowUpdate t n).current_request = n.current_request ∧
      (maybeWindowUpdate t n).current_request_start_time = n.current_request_start_time ∧
      (maybeWindowUpdate t n).completed_history = n.completed_history ∧
      (maybeWindowUpdate t n).cpu_capacity = n.cpu_capacity := by
  unfold maybeWindowUpdate
  split
  · exact update_sla_weights_window_fields t n
  · exact ⟨rfl, rfl, rfl, rfl, rfl, rfl, rfl, rfl, rfl, rfl, rfl, rfl, rfl, rfl⟩

theorem get_total_congr (m1 m2 : FogNode) (hs : m1.scheduler = m2.scheduler)
    (h1 : m1.queue = m2.queue) (h2 : m1.emergency_queue = m2.emergency_queue)
    (h3 : m1.normal_queue = m2.normal_queue)
    (h4 : m1.priority_queue_3 = m2.priority_queue_3)
    (h5 : m1.priority_queue_2 = m2.priority_queue_2)
    (h6 : m1.priority_queue_1 = m2.priority_queue_1)
    (h7 : m1.dynamic_queue_3 = m2.dynamic_queue_3)
    (h8 : m1.dynamic_queue_2 = m2.dynamic_queue_2)
    (h9 : m1.dynamic_queue_1 = m2.dynamic_queue_1)
    (h10 : m1.current_request = m2.current_request) :
    m1.get_total_queue_length = m2.get_total_queue_length := by
  unfold FogNode.get_total_queue_length
  rw [hs, h1, h2, h3, h4, h5, h6, h7, h8, h9, h10]

theorem nodeRemaining_congr (m1 m2 : FogNode) (hs : m1.scheduler = m2.scheduler)
    (h1 : m1.queue = m2.queue) (h2 : m1.emergency_queue = m2.emergency_queue)
    (h3 : m1.normal_queue = m2.normal_queue)
    (h4 : m1.priority_queue_3 = m2.priority_queue_3)
    (h5 : m1.priority_queue_2 = m2.priority_queue_2)
    (h6 : m1.priority_queue_1 = m2.priority_queue_1)
    (h7 : m1.dynamic_queue_3 = m2.dynamic_queue_3)
    (h8 : m1.dynamic_queue_2 = m2.dynamic_queue_2)
    (h9 : m1.dynamic_queue_1 = m2.dynamic_queue_1)
    (h10 : m1.current_request = m2.current_request) :
    nodeRemaining m1 = nodeRemaining m2 := by
  unfold nodeRemaining
  rw [hs, h1, h2, h3, h4, h5, h6, h7, h8, h9, h10]

theorem maybeWindowUpdate_total (t : ℚ) (m : FogNode) :
    (maybeWindowUpdate t m).get_total_queue_length = m.get_total_queue_length := by
  obtain ⟨hs, h1, h2, h3, h4, h5, h6, h7, h8, h9, h10, _, _, _⟩ := maybeWindowUpdate_fields t m
  exact get_total_congr _ m hs h1 h2 h3 h4 h5 h6 h7 h8 h9 h10

theorem maybeWindowUpdate_remaining (t : ℚ) (m : FogNode) :
    nodeRemaining (maybeWindowUpdate t m) = nodeRemaining m := by
  obtain ⟨hs, h1, h2, h3, h4, h5, h6, h7, h8, h9, h10, _, _, _⟩ := maybeWindowUpdate_fields t m
  exact nodeRemaining_congr _ m hs h1 h2 h3 h4 h5 h6 h7 h8 h9 h10

theorem maybeWindowUpdate_wf (t : ℚ) (m : FogNode) (h : nodeWf m) :
    nodeWf (maybeWindowUpdate t m) := by
  obtain ⟨_, _, _, _, _, _, _, h7, h8, h9, _, _, _, _⟩ := maybeWindowUpdate_fields t m
  unfold nodeWf
  rw [h7, h8, h9]
  exact h

theorem process_fifo_eq (t dt : ℚ) (n : FogNode) (hs : n.scheduler = Scheduler.fifo) :
    n.process_one_step t dt =
      ({ n with queue := (drainQueue t dt (n.cpu_capacity * dt) n.queue).1 },
        (drainQueue t dt (n.cpu_capacity * dt) n.queue).2.1) := by
  simp only [FogNode.process_one_step, hs]

theorem process_ef_eq (t dt : ℚ) (n : FogNode)
    (hs : n.scheduler = Scheduler.emergencyFirst) :
    n.process_one_step t dt =
      ({ n with
          emergency_queue := (drainQueue t dt (n.cpu_capacity * dt) n.emergency_queue).1
          normal_queue := (drainQueue t dt
            (drainQueue t dt (n.cpu_capacity * dt) n.emergency_queue).2.2 n.normal_queue).1 },
        (drainQueue t dt (n.cpu_capacity * dt) n.emergency_queue).2.1 ++
          (drainQueue t dt
            (drainQueue t dt (n.cpu_capacity * dt) n.emergency_queue).2.2
            n.normal_queue).2.1) := by
  simp only [FogNode.process_one_step, hs]

theorem process_sp_eq (t dt : ℚ) (n : FogNode)
    (hs : n.scheduler = Scheduler.staticPriority) :
    n.process_one_step t dt =
      ({ n with
          priority_queue_3 := (drainQueue t dt (n.cpu_capacity * dt) n.priority_queue_3).1
          priority_queue_2 := (drainQueue t dt
            (drainQueue t dt (n.cpu_capacity * dt) n.priority_queue_3).2.2
            n.priority_queue_2).1
          priority_queue_1 := (drainQueue t dt
            (drainQueue t dt
              (drainQueue t dt (n.cpu_capacity * dt) n.priority_queue_3).2.2
              n.priority_queue_2).2.2
            n.priority_queue_1).1 },
        (drainQueue t dt (n.cpu_capacity * dt) n.priority_queue_3).2.1 ++
          (drainQueue t dt
            (drainQueue t dt (n.cpu_capacity * dt) n.priority_queue_3).2.2
            n.priority_queue_2).2.1 ++
          (drainQueue t dt
            (drainQueue t dt
              (drainQueue t dt (n.cpu_capacity * dt) n.priority_queue_3).2.2
              n.priority_queue_2).2.2
            n.priority_queue_1).2.1) := by
  simp only [FogNode.process_one_step, hs]

theorem process_sla_eq (t dt : ℚ) (n : FogNode)
    (hs : n.scheduler = Scheduler.slaDwpFog) :
    n.process_one_step t dt =
      (maybeWindowUpdate t (slaPostNode t dt n), (slaFinal t dt n).completed) := by
  simp only [FogNode.process_one_step, hs, slaPostNode, slaFinal, slaInitState, slaFuel]

/-- Facts about one processing step used by the conservation argument:
scheduler unchanged, SLA well-formedness preserved, and the number of
completed requests exactly accounts for the drop in held requests. -/
theorem process_one_step_count (t dt : ℚ) (n : FogNode) (hwf : nodeWf n) :
    (n.process_one_step t dt).1.scheduler = n.scheduler ∧
      nodeWf (n.process_one_step t dt).1 ∧
      (n.process_one_step t dt).2.length +
        (n.process_one_step t dt).1.get_total_queue_length = n.get_total_queue_length := by
  cases hs : n.scheduler with
  | fifo =>
    rw [process_fifo_eq t dt n hs]
    dsimp only
    refine ⟨hs, hwf, ?_⟩
    have e1 : ({ n with queue := (drainQueue t dt (n.cpu_capacity * dt) n.queue).1 } :
        FogNode).get_total_queue_length =
        (drainQueue t dt (n.cpu_capacity * dt) n.queue).1.length := get_total_fifo _ hs
    rw [e1, get_total_fifo n hs]
    have := drain_length t dt n.queue (n.cpu_capacity * dt)
    omega
  | emergencyFirst =>
    rw [process_ef_eq t dt n hs]
    dsimp only
    refine ⟨hs, hwf, ?_⟩
    have e1 : ({ n with
        emergency_queue := (drainQueue t dt (n.cpu_capacity * dt) n.emergency_queue).1
        normal_queue := (drainQueue t dt
          (drainQueue t dt (n.cpu_capacity * dt) n.emergency_queue).2.2 n.normal_queue).1 } :
        FogNode).get_total_queue_length =
        (drainQueue t dt (n.cpu_capacity * dt) n.emergency_queue).1.length +
          (drainQueue t dt (drainQueue t dt (n.cpu_capacity * dt) n.emergency_queue).2.2
            n.normal_queue).1.length := get_total_ef _ hs
    rw [e1, get_total_ef n hs]
    have h1 := drain_length t dt n.emergency_queue (n.cpu_capacity * dt)
    have h2 := drain_length t dt n.normal_queue
      (drainQueue t dt (n.cpu_capacity * dt) n.emergency_queue).2.2
    simp only [List.length_append]
    omega
  | staticPriority =>
    rw [process_sp_eq t dt n hs]
    dsimp only
    refine ⟨hs, hwf, ?_⟩
    have e1 : ({ n with
        priority_queue_3 := (drainQueue t dt (n.cpu_capacity * dt) n.priority_queue_3).1
        priority_queue_2 := (drainQueue t dt
          (drainQueue t dt (n.cpu_capacity * dt) n.priority_queue_3).2.2
          n.priority_queue_2).1
        priority_queue_1 := (drainQueue t dt
          (drainQueue t dt
            (drainQueue t dt (n.cpu_capacity * dt) n.priority_queue_3).2.2
            n.priority_queue_2).2.2
          n.priority_queue_1).1 } : FogNode).get_total_queue_length =
        (drainQueue t dt (n.cpu_capacity * dt) n.priority_queue_3).1.length +
          (drainQueue t dt
            (drainQueue t dt (n.cpu_capacity * dt) n.priority_queue_3).2.2
            n.priority_queue_2).1.length +
          (drainQueue t dt
            (drainQueue t dt
              (drainQueue t dt (n.cpu_capacity * dt) n.priority_queue_3).2.2
              n.priority_queue_2).2.2
            n.priority_queue_1).1.length := get_total_sp _ hs
    rw [e1, get_total_sp n hs]
    have h1 := drain_length t dt n.priority_queue_3 (n.cpu_capacity * dt)
    have h2 := drain_length t dt n.priority_queue_2
      (drainQueue t dt (n.cpu_capacity * dt) n.priority_queue_3).2.2
    have h3 := drain_length t dt n.priority_queue_1
      (drainQueue t dt
        (drainQueue t dt (n.cpu_capacity * dt) n.priority_queue_3).2.2
        n.priority_queue_2).2.2
    simp only [List.length_append]
    omega
  | slaDwpFog =>
    rw [process_sla_eq t dt n hs]
    dsimp only
    have hwfI : wfS (slaInitState t dt n) := hwf
    obtain ⟨wfF, hcnt, _, _, _⟩ :=
      slaLoop_invariants n.alpha n.beta n.gamma t dt (slaFuel n) (slaInitState t dt n) hwfI
    have hwfF : wfS (slaFinal t dt n) := wfF
    have hcnt' : (slaFinal t dt n).completed.length + sCount (slaFinal t dt n) =
        0 + sCount (slaInitState t dt n) := hcnt
    refine ⟨(maybeWindowUpdate_fields t (slaPostNode t dt n)).1.trans hs, ?_, ?_⟩
    · exact maybeWindowUpdate_wf t (slaPostNode t dt n) hwfF
    · have e1 : (maybeWindowUpdate t (slaPostNode t dt n)).get_total_queue_length =
          (slaPostNode t dt n).get_total_queue_length :=
        maybeWindowUpdate_total t (slaPostNode t dt n)
      have e2 : (slaPostNode t dt n).get_total_queue_length = sCount (slaFinal t dt n) :=
        get_total_sla (slaPostNode t dt n) hs
      have e3 : n.get_total_queue_length = sCount (slaInitState t dt n) := get_total_sla n hs
      rw [e1, e2, e3]
      omega

/-- Facts about one processing step used by the budget-accounting claim:
the node's total remaining work decreases by between 0 and
`cpu_capacity * dt` units, every completed request ends with zero
remaining demand and completion time `t + dt`, and held requests stay
unfinished. -/
theorem process_one_step_work (t dt : ℚ) (n : FogNode) (hwf : nodeWf n)
    (hnn : nodeNonneg n) (hcap : 0 ≤ n.cpu_capacity * dt) :
    0 ≤ nodeRemaining n - nodeRemaining (n.process_one_step t dt).1 ∧
      nodeRemaining n - nodeRemaining (n.process_one_step t dt).1 ≤ n.cpu_capacity * dt ∧
      (∀ r' ∈ (n.process_one_step t dt).2,
        r'.remaining_demand = 0 ∧ r'.completion_time = Option.some (t + dt)) := by
  cases hs : n.scheduler with
  | fifo =>
    rw [process_fifo_eq t dt n hs]
    have e1 : nodeRemaining ({ n with
        queue := (drainQueue t dt (n.cpu_capacity * dt) n.queue).1 } : FogNode) =
        sumRemaining (drainQueue t dt (n.cpu_capacity * dt) n.queue).1 := by
      unfold nodeRemaining
      rw [show ({ n with queue := (drainQueue t dt (n.cpu_capacity * dt) n.queue).1 } :
        FogNode).scheduler = Scheduler.fifo from hs]
    have e2 : nodeRemaining n = sumRemaining n.queue := by unfold nodeRemaining; rw [hs]
    rw [e1, e2]
    have hcons := drain_conservation t dt n.queue (n.cpu_capacity * dt)
    have hnn0 := drain_capOut_nonneg t dt n.queue (n.cpu_capacity * dt) hcap
    have hle := drain_capOut_le t dt n.queue hnn.1 (n.cpu_capacity * dt)
    exact ⟨by linarith, by linarith, drain_completed t dt n.queue (n.cpu_capacity * dt)⟩
  | emergencyFirst =>
    rw [process_ef_eq t dt n hs]
    have e1 : nodeRemaining ({ n with
        emergency_queue := (drainQueue t dt (n.cpu_capacity * dt) n.emergency_queue).1
        normal_queue := (drainQueue t dt
          (drainQueue t dt (n.cpu_capacity * dt) n.emergency_queue).2.2 n.normal_queue).1 } :
          FogNode) =
        sumRemaining (drainQueue t dt (n.cpu_capacity * dt) n.emergency_queue).1 +
          sumRemaining (drainQueue t dt
            (drainQueue t dt (n.cpu_capacity * dt) n.emergency_queue).2.2
            n.normal_queue).1 := by
      unfold nodeRemaining
      rw [show ({ n with
        emergency_queue := (drainQueue t dt (n.cpu_capacity * dt) n.emergency_queue).1
        normal_queue := (drainQueue t dt
          (drainQueue t dt (n.cpu_capacity * dt) n.emergency_queue).2.2 n.normal_queue).1 } :
          FogNode).scheduler = Scheduler.emergencyFirst from hs]
    have e2 : nodeRemaining n = sumRemaining n.emergency_queue + sumRemaining n.normal_queue := by
      unfold nodeRemaining; rw [hs]
    rw [e1, e2]
    have c1 := drain_conservation t dt n.emergency_queue (n.cpu_capacity * dt)
    have b1 := drain_capOut_nonneg t dt n.emergency_queue (n.cpu_capacity * dt) hcap
    have l1 := drain_capOut_le t dt n.emergency_queue hnn.2.1 (n.cpu_capacity * dt)
    have c2 := drain_conservation t dt n.normal_queue
      (drainQueue t dt (n.cpu_capacity * dt) n.emergency_queue).2.2
    have b2 := drain_capOut_nonneg t dt n.normal_queue
      (drainQueue t dt (n.cpu_capacity * dt) n.emergency_queue).2.2 b1
    have l2 := drain_capOut_le t dt n.normal_queue hnn.2.2.1
      (drainQueue t dt (n.cpu_capacity * dt) n.emergency_queue).2.2
    refine ⟨by linarith, by linarith, ?_⟩
    intro r' hr'
    rcases List.mem_append.mp hr' with h | h
    · exact drain_completed t dt n.emergency_queue (n.cpu_capacity * dt) r' h
    · exact drain_completed t dt n.normal_queue _ r' h
  | staticPriority =>
    rw [process_sp_eq t dt n hs]
    have e1 : nodeRemaining ({ n with
        priority_queue_3 := (drainQueue t dt (n.cpu_capacity * dt) n.priority_queue_3).1
        priority_queue_2 := (drainQueue t dt
          (drainQueue t dt (n.cpu_capacity * dt) n.priority_queue_3).2.2
          n.priority_queue_2).1
        priority_queue_1 := (drainQueue t dt
          (drainQueue t dt
            (drainQueue t dt (n.cpu_capacity * dt) n.priority_queue_3).2.2
            n.priority_queue_2).2.2
          n.priority_queue_1).1 } : FogNode) =
        sumRemaining (drainQueue t dt (n.cpu_capacity * dt) n.priority_queue_3).1 +
          sumRemaining (drainQueue t dt
            (drainQueue t dt (n.cpu_capacity * dt) n.priority_queue_3).2.2
            n.priority_queue_2).1 +
          sumRemaining (drainQueue t dt
            (drainQueue t dt
              (drainQueue t dt (n.cpu_capacity * dt) n.priority_queue_3).2.2
              n.priority_queue_2).2.2
            n.priority_queue_1).1 := by
      unfold nodeRemaining
      rw [show ({ n with
        priority_queue_3 := (drainQueue t dt (n.cpu_capacity * dt) n.priority_queue_3).1
        priority_queue_2 := (drainQueue t dt
          (drainQueue t dt (n.cpu_capacity * dt) n.priority_queue_3).2.2
          n.priority_queue_2).1
        priority_queue_1 := (drainQueue t dt
          (drainQueue t dt
            (drainQueue t dt (n.cpu_capacity * dt) n.priority_queue_3).2.2
            n.priority_queue_2).2.2
          n.priority_queue_1).1 } : FogNode).scheduler = Scheduler.staticPriority from hs]
    have e2 : nodeRemaining n = sumRemaining n.priority_queue_3 +
        sumRemaining n.priority_queue_2 + sumRemaining n.priority_queue_1 := by
      unfold nodeRemaining; rw [hs]
    rw [e1, e2]
    have c1 := drain_conservation t dt n.priority_queue_3 (n.cpu_capacity * dt)
    have b1 := drain_capOut_nonneg t dt n.priority_queue_3 (n.cpu_capacity * dt) hcap
    have l1 := drain_capOut_le t dt n.priority_queue_3 hnn.2.2.2.1 (n.cpu_capacity * dt)
    have c2 := drain_conservation t dt n.priority_queue_2
      (drainQueue t dt (n.cpu_capacity * dt) n.priority_queue_3).2.2
    have b2 := drain_capOut_nonneg t dt n.priority_queue_2
      (drainQueue t dt (n.cpu_capacity * dt) n.priority_queue_3).2.2 b1
    have l2 := drain_capOut_le t dt n.priority_queue_2 hnn.2.2.2.2.1
      (drainQueue t dt (n.cpu_capacity * dt) n.priority_queue_3).2.2
    have c3 := drain_conservation t dt n.priority_queue_1
      (drainQueue t dt
        (drainQueue t dt (n.cpu_capacity * dt) n.priority_queue_3).2.2
        n.priority_queue_2).2.2
    have b3 := drain_capOut_nonneg t dt n.priority_queue_1
      (drainQueue t dt
        (drainQueue t dt (n.cpu_capacity * dt) n.priority_queue_3).2.2
        n.priority_queue_2).2.2 b2
    have l3 := drain_capOut_le t dt n.priority_queue_1 hnn.2.2.2.2.2.1
      (drainQueue t dt
        (drainQueue t dt (n.cpu_capacity * dt) n.priority_queue_3).2.2
        n.priority_queue_2).2.2
    refine ⟨by linarith, by linarith, ?_⟩
    intro r' hr'
    rcases List.mem_append.mp hr' with h | h
    · rcases List.mem_append.mp h with h' | h'
      · exact drain_completed t dt n.priority_queue_3 (n.cpu_capacity * dt) r' h'
      · exact drain_completed t dt n.priority_queue_2 _ r' h'
    · exact drain_completed t dt n.priority_queue_1 _ r' h
  | slaDwpFog =>
    rw [process_sla_eq t dt n hs]
    dsimp only
    have hwfI : wfS (slaInitState t dt n) := hwf
    have hnnI : nonnegS (slaInitState t dt n) :=
      ⟨hnn.2.2.2.2.2.2.1, hnn.2.2.2.2.2.2.2.1, hnn.2.2.2.2.2.2.2.2.1, hnn.2.2.2.2.2.2.2.2.2⟩
    obtain ⟨_, _, hrem, hnnb, hcompl⟩ :=
      slaLoop_invariants n.alpha n.beta n.gamma t dt (slaFuel n) (slaInitState t dt n) hwfI
    obtain ⟨_, hb⟩ := hnnb hnnI
    have hcapI : (0:ℚ) ≤ (slaInitState t dt n).cap := hcap
    obtain ⟨hb1, hb2⟩ := hb hcapI
    have hrem' : sRemaining (slaInitState t dt n) - sRemaining (slaFinal t dt n) =
        (slaInitState t dt n).cap - (slaFinal t dt n).cap := hrem
    have e0 : nodeRemaining (maybeWindowUpdate t (slaPostNode t dt n)) =
        nodeRemaining (slaPostNode t dt n) := maybeWindowUpdate_remaining t _
    have e1 : nodeRemaining (slaPostNode t dt n) = sRemaining (slaFinal t dt n) := by
      unfold nodeRemaining
      rw [show (slaPostNode t dt n).scheduler = Scheduler.slaDwpFog from hs]
      rfl
    have e2 : nodeRemaining n = sRemaining (slaInitState t dt n) := by
      unfold nodeRemaining
      rw [hs]
      rfl
    have ecap : (slaInitState t dt n).cap = n.cpu_capacity * dt := rfl
    rw [e0, e1, e2]
    have hcap2 : (slaFinal t dt n).cap ≤ n.cpu_capacity * dt := by rw [← ecap]; exact hb2
    have hb1' : (0:ℚ) ≤ (slaFinal t dt n).cap := hb1
    refine ⟨?_, ?_, ?_⟩
    · rw [hrem', ecap]
      linarith
    · rw [hrem', ecap]
      linarith
    · intro r' hr'
      rcases hcompl r' hr' with h | h
      · exact absurd h (List.not_mem_nil r')
      · exact h

/-! ### Claims -/



/-- C1.  SLA-adaptive admission soundness: with the SLA policy, a request is
admitted by `enqueue_request` only if
`t_finish = arrival_time + (W_n + processing_demand) / cpu_capacity ≤
absolute_deadline` where `W_n` sums `remaining_demand` over the three class
queues and the in-service request; a request whose predicted finish exceeds
its deadline is never admitted; and whenever the queue-length gate does not
fire first, admission holds if and only if the predicted finish meets the
deadline. -/
theorem c1_sla_admission_soundness (n : FogNode) (r : Request) (dt : ℚ)
    (hs : n.scheduler = Scheduler.slaDwpFog) :
    ((n.enqueue_request r dt).2 = EnqueueResult.admitted →
        r.arrival_time + (dynamicTotalRemaining n + r.processing_demand) / n.cpu_capacity ≤
          r.absolute_deadline) ∧
    (¬ (r.arrival_time + (dynamicTotalRemaining n + r.processing_demand) / n.cpu_capacity ≤
          r.absolute_deadline) →
        (n.enqueue_request r dt).2 ≠ EnqueueResult.admitted) ∧
    (optTest (fun m => decide (m ≤ n.get_total_queue_length)) n.max_queue_length = false →
      ((n.enqueue_request r dt).2 = EnqueueResult.admitted ↔
        r.arrival_time + (dynamicTotalRemaining n + r.processing_demand) / n.cpu_capacity ≤
          r.absolute_deadline)) := by
  cases hful : optTest (fun m => decide (m ≤ n.get_total_queue_length)) n.max_queue_length with
  | true =>
    have hres : (n.enqueue_request r dt).2 = EnqueueResult.queueFull := by
      simp [FogNode.enqueue_request, hful]
    refine ⟨by simp [hres], by simp [hres], by simp [hful]⟩
  | false =>
    cases hchk : n.admission_control_check_timebased r with
    | true =>
      have hres : (n.enqueue_request r dt).2 = EnqueueResult.admitted := by
        simp [FogNode.enqueue_request, hs, hful, hchk]
      have hineq := (admission_check_true_iff n r).mp hchk
      exact ⟨fun _ => hineq, fun hn => absurd hineq hn, fun _ => by simp [hres, hineq]⟩
    | false =>
      have hres : (n.enqueue_request r dt).2 = EnqueueResult.admissionRejected := by
        simp [FogNode.enqueue_request, hs, hful, hchk]
      have hnineq : ¬ (r.arrival_time +
          (dynamicTotalRemaining n + r.processing_demand) / n.cpu_capacity ≤
            r.absolute_deadline) := fun h => by
        rw [(admission_check_true_iff n r).mpr h] at hchk
        exact Bool.noConfusion hchk
      exact ⟨by simp [hres], fun _ => by simp [hres], fun _ => by simp [hres, hnineq]⟩

/-- Witness for C1 at a concrete input: the idle unit-capacity SLA node
admits `reqEasy`, whose predicted finish time `0 + (0 + 1) / 1 = 1` meets
its deadline `10`. -/
theorem c1_witness :
    (slaNodeEmpty.enqueue_request reqEasy 1).2 = EnqueueResult.admitted ∧
    reqEasy.arrival_time +
      (dynamicTotalRemaining slaNodeEmpty + reqEasy.processing_demand) /
        slaNodeEmpty.cpu_capacity ≤ reqEasy.absolute_deadline := by
  have h := c1_sla_admission_soundness slaNodeEmpty reqEasy 1 rfl
  have hadm : (slaNodeEmpty.enqueue_request reqEasy 1).2 = EnqueueResult.admitted := by
    norm_num [FogNode.enqueue_request, slaNodeEmpty, reqEasy, optTest,
      FogNode.admission_control_check_timebased, dynamicTotalRemaining, sumRemaining,
      addToDynamicQueue, preemptMaybe]
  exact ⟨hadm, h.1 hadm⟩

/-- Counterexample to C2 as stated: `slaNodeFull` runs the SLA policy, its
combined queue is at the bound, and `reqHard`'s predicted finish `101`
exceeds its deadline `1`, yet `enqueue_request` returns the queue-full
outcome, not `admission_rejected` — the queue-length test fires first. -/
theorem c2_counterexample :
    slaNodeFull.scheduler = Scheduler.slaDwpFog ∧
    optTest (fun m => decide (m ≤ slaNodeFull.get_total_queue_length))
      slaNodeFull.max_queue_length = true ∧
    slaNodeFull.admission_control_check_timebased reqHard = false ∧
    (slaNodeFull.enqueue_request reqHard 1).2 = EnqueueResult.queueFull ∧
    (slaNodeFull.enqueue_request reqHard 1).2 ≠ EnqueueResult.admissionRejected := by
  have hchk : slaNodeFull.admission_control_check_timebased reqHard = false := by
    norm_num [FogNode.admission_control_check_timebased, dynamicTotalRemaining, sumRemaining,
      slaNodeFull, slaNodeEmpty, reqHard, reqEasy]
  have hres : (slaNodeFull.enqueue_request reqHard 1).2 = EnqueueResult.queueFull := by
    simp [FogNode.enqueue_request, slaNodeFull, slaNodeEmpty, optTest,
      FogNode.get_total_queue_length]
  exact ⟨rfl, by decide, hchk, hres, by simp [hres]⟩

/-- C2 amended: in `enqueue_request` the queue-length test is evaluated
before the SLA deadline-predictive test — a request offered to an
SLA-adaptive node whose combined queue is full gets the queue-full outcome
regardless of its predicted finish time, and the admission-control rejection
is returned exactly when the queue is not full and the predictive test
fails. -/
theorem c2_queue_check_precedes_admission (n : FogNode) (r : Request) (dt : ℚ)
    (hs : n.scheduler = Scheduler.slaDwpFog) :
    (optTest (fun m => decide (m ≤ n.get_total_queue_length)) n.max_queue_length = true →
      n.enqueue_request r dt = (n, EnqueueResult.queueFull)) ∧
    (optTest (fun m => decide (m ≤ n.get_total_queue_length)) n.max_queue_length = false →
      n.admission_control_check_timebased r = false →
      (n.enqueue_request r dt).2 = EnqueueResult.admissionRejected) := by
  constructor
  · intro hful
    simp [FogNode.enqueue_request, hful]
  · intro hful hchk
    simp [FogNode.enqueue_request, hs, hful, hchk]

/-- Witness for C2 amended at concrete inputs: the full SLA node returns
queue-full for the infeasible `reqHard`, and the idle SLA node rejects it
through admission control. -/
theorem c2_witness :
    slaNodeFull.enqueue_request reqHard 1 = (slaNodeFull, EnqueueResult.queueFull) ∧
    (slaNodeEmpty.enqueue_request reqHard 1).2 = EnqueueResult.admissionRejected := by
  refine ⟨(c2_queue_check_precedes_admission slaNodeFull reqHard 1 rfl).1 (by decide),
    (c2_queue_check_precedes_admission slaNodeEmpty reqHard 1 rfl).2 (by decide) ?_⟩
  norm_num [FogNode.admission_control_check_timebased, dynamicTotalRemaining, sumRemaining,
    slaNodeEmpty, reqHard]

/-- C3.  Per-step processing semantics for every policy: one
`process_one_step` call consumes between `0` and `cpu_capacity * time_step`
work units in total; every completed request it returns ends with
`remaining_demand = 0` and `completion_time = current_time + time_step`;
in the head-of-queue loop shared by FIFO / Emergency-First /
Static-Priority, still-queued requests keep a positive remaining demand and
no completion time (so remaining demand hits exactly 0 iff the completion
time is set), and the SLA dispatch loop likewise keeps every held request
unfinished; and the spec's scenario holds: a unit-capacity FIFO node given
one request of demand `2.5` at `t = 0` with `dt = 1` completes it on the
third step with `completion_time = 3.0`, completing nothing earlier. -/
theorem c3_per_step_processing_semantics :
    (∀ (t dt : ℚ) (n : FogNode), nodeWf n → nodeNonneg n → 0 ≤ n.cpu_capacity * dt →
      0 ≤ nodeRemaining n - nodeRemaining (n.process_one_step t dt).1 ∧
        nodeRemaining n - nodeRemaining (n.process_one_step t dt).1 ≤ n.cpu_capacity * dt ∧
        ∀ r' ∈ (n.process_one_step t dt).2,
          r'.remaining_demand = 0 ∧ r'.completion_time = Option.some (t + dt)) ∧
    (∀ (now dt cap : ℚ) (q : List Request),
      (∀ r ∈ q, r.completion_time = Option.none ∧ 0 < r.remaining_demand) →
      (∀ r' ∈ (drainQueue now dt cap q).1,
        r'.completion_time = Option.none ∧ 0 < r'.remaining_demand) ∧
      (∀ r' ∈ (drainQueue now dt cap q).2.1,
        r'.remaining_demand = 0 ∧ r'.completion_time = Option.some (now + dt))) ∧
    (∀ (A B C now dt : ℚ) (fuel : Nat) (s : SlaState),
      posS s → posS (slaLoop A B C now dt fuel s)) ∧
    ((fifoNodeScenario.process_one_step 0 1).2 = [] ∧
      ((fifoNodeScenario.process_one_step 0 1).1.process_one_step 1 1).2 = [] ∧
      ((((fifoNodeScenario.process_one_step 0 1).1.process_one_step 1 1).1.process_one_step
          2 1).2.map Request.completion_time) = [Option.some 3]) := by
  refine ⟨?_, ?_, ?_, ?_⟩
  · intro t dt n hwf hnn hcap
    exact process_one_step_work t dt n hwf hnn hcap
  · intro now dt cap q hq
    exact ⟨drain_queued now dt q hq cap, drain_completed now dt q cap⟩
  · intro A B C now dt fuel s hp
    exact slaLoop_pos A B C now dt fuel s hp
  · have e1 : fifoNodeScenario.process_one_step 0 1 =
        ({ fifoNodeScenario with
            queue := [{ reqScenario with start_time := Option.some 0, remaining_demand := 3/2 }] },
          []) := by
      simp [FogNode.process_one_step, drainQueue, stampStart, fifoNodeScenario,
        reqScenario] <;> norm_num [drainQueue]
    have e2 : ({ fifoNodeScenario with
        queue := [{ reqScenario with start_time := Option.some 0, remaining_demand := 3/2 }] }
          : FogNode).process_one_step 1 1 =
        ({ fifoNodeScenario with
            queue := [{ reqScenario with start_time := Option.some 0, remaining_demand := 1/2 }] },
          []) := by
      simp [FogNode.process_one_step, drainQueue, stampStart, fifoNodeScenario,
        reqScenario] <;> norm_num [drainQueue]
    have e3 : ({ fifoNodeScenario with
        queue := [{ reqScenario with start_time := Option.some 0, remaining_demand := 1/2 }] }
          : FogNode).process_one_step 2 1 =
        ({ fifoNodeScenario with queue := [] },
          [{ reqScenario with
              start_time := Option.some 0
              remaining_demand := 0
              completion_time := Option.some 3 }]) := by
      simp [FogNode.process_one_step, drainQueue, stampStart, fifoNodeScenario,
        reqScenario] <;> norm_num [drainQueue]
    refine ⟨?_, ?_, ?_⟩
    · rw [e1]
    · rw [e1]
      exact congrArg Prod.snd e2
    · rw [e1]
      dsimp only
      rw [e2]
      dsimp only
      rw [e3]
      rfl

/-- Witness for C3 at a concrete input: one step of the scenario node
consumes exactly one work unit (between 0 and the budget
`cpu_capacity * dt = 1`). -/
theorem c3_witness :
    0 ≤ nodeRemaining fifoNodeScenario -
        nodeRemaining (fifoNodeScenario.process_one_step 0 1).1 ∧
      nodeRemaining fifoNodeScenario -
        nodeRemaining (fifoNodeScenario.process_one_step 0 1).1 ≤
          fifoNodeScenario.cpu_capacity * 1 := by
  have h := c3_per_step_processing_semantics.1 0 1 fifoNodeScenario
    (by simp [nodeWf, fifoNodeScenario])
    (by simp [nodeNonneg, fifoNodeScenario, reqScenario] <;> norm_num)
    (by norm_num [fifoNodeScenario])
  exact ⟨h.1, h.2.1⟩

theorem stampStart_rid (now : ℚ) (r : Request) :
    (stampStart now r).request_id = r.request_id := by
  unfold stampStart; split <;> rfl

/-- The head-of-queue loop serves strictly in order: the completed requests
are the first `k` elements of the queue and the leftover queue is the
remaining suffix, matched by `request_id`. -/
theorem drain_order (now dt : ℚ) (q : List Request) :
    ∀ cap : ℚ, ∃ k : Nat,
      (drainQueue now dt cap q).2.1.map Request.request_id =
        (q.map Request.request_id).take k ∧
      (drainQueue now dt cap q).1.map Request.request_id =
        (q.map Request.request_id).drop k := by
  induction q with
  | nil =>
    intro cap
    exact ⟨0, by simp [drainQueue]⟩
  | cons r rest ih =>
    intro cap
    by_cases hc : 0 < cap
    · by_cases hr : r.remaining_demand ≤ cap
      · obtain ⟨k, hk1, hk2⟩ := ih (cap - r.remaining_demand)
        refine ⟨k + 1, ?_, ?_⟩
        · rw [drain_cons_complete now dt cap r rest hc hr]
          simp [stampStart_rid, hk1]
        · rw [drain_cons_complete now dt cap r rest hc hr]
          simpa using hk2
      · refine ⟨0, ?_, ?_⟩
        · rw [drain_cons_over now dt cap r rest hc hr]
          simp
        · rw [drain_cons_over now dt cap r rest hc hr]
          simp [stampStart_rid]
    · exact ⟨0, by rw [drain_nopower now dt cap (r :: rest) hc]; simp,
        by rw [drain_nopower now dt cap (r :: rest) hc]; simp⟩

/-- C8.  Strict priority ordering: whenever a Static-Priority step leaves a
class-3 request queued, the class-2 and class-1 queues are untouched and
every request completed that step came from the class-3 drain (so no
class-1 or class-2 request was started while class-3 work remained);
whenever it leaves a class-2 request queued the class-1 queue is untouched;
an Emergency-First step that leaves an emergency request queued keeps the
normal queue untouched and completes only emergency-queue requests; and
within every queue service is FIFO: the completed requests are the first
`k` of the queue and the leftover queue is the remaining suffix. -/
theorem c8_strict_priority_ordering (t dt : ℚ) (n : FogNode) :
    (n.scheduler = Scheduler.staticPriority →
      (n.process_one_step t dt).1.priority_queue_3 ≠ [] →
      (n.process_one_step t dt).1.priority_queue_2 = n.priority_queue_2 ∧
        (n.process_one_step t dt).1.priority_queue_1 = n.priority_queue_1 ∧
        (n.process_one_step t dt).2 =
          (drainQueue t dt (n.cpu_capacity * dt) n.priority_queue_3).2.1) ∧
    (n.scheduler = Scheduler.staticPriority →
      (n.process_one_step t dt).1.priority_queue_2 ≠ [] →
      (n.process_one_step t dt).1.priority_queue_1 = n.priority_queue_1) ∧
    (n.scheduler = Scheduler.emergencyFirst →
      (n.process_one_step t dt).1.emergency_queue ≠ [] →
      (n.process_one_step t dt).1.normal_queue = n.normal_queue ∧
        (n.process_one_step t dt).2 =
          (drainQueue t dt (n.cpu_capacity * dt) n.emergency_queue).2.1) ∧
    (∀ (now cap : ℚ) (q : List Request), ∃ k : Nat,
      (drainQueue now dt cap q).2.1.map Request.request_id =
        (q.map Request.request_id).take k ∧
      (drainQueue now dt cap q).1.map Request.request_id =
        (q.map Request.request_id).drop k) := by
  refine ⟨?_, ?_, ?_, ?_⟩
  · intro hs h3
    rw [process_sp_eq t dt n hs] at h3 ⊢
    dsimp only at h3 ⊢
    have hle := drain_leftover t dt n.priority_queue_3 (n.cpu_capacity * dt) h3
    rw [drain_nopower t dt _ n.priority_queue_2 (not_lt.mpr hle)]
    dsimp only
    rw [drain_nopower t dt _ n.priority_queue_1 (not_lt.mpr hle)]
    simp
  · intro hs h2
    rw [process_sp_eq t dt n hs] at h2 ⊢
    dsimp only at h2 ⊢
    have hle := drain_leftover t dt n.priority_queue_2 _ h2
    rw [drain_nopower t dt _ n.priority_queue_1 (not_lt.mpr hle)]
  · intro hs he
    rw [process_ef_eq t dt n hs] at he ⊢
    dsimp only at he ⊢
    have hle := drain_leftover t dt n.emergency_queue (n.cpu_capacity * dt) he
    rw [drain_nopower t dt _ n.normal_queue (not_lt.mpr hle)]
    simp
  · intro now cap q
    exact drain_order now dt q cap

/-- Witness for C8 at a concrete input: on the Static-Priority fixture the
unfinishable class-3 request stays queued after one step, the class-2 queue
is untouched, and every completion came from the class-3 drain. -/
theorem c8_witness :
    (spNodeScenario.process_one_step 0 1).1.priority_queue_3 ≠ [] ∧
      (spNodeScenario.process_one_step 0 1).1.priority_queue_2 =
        spNodeScenario.priority_queue_2 ∧
      (spNodeScenario.process_one_step 0 1).2 =
        (drainQueue 0 1 (spNodeScenario.cpu_capacity * 1)
          spNodeScenario.priority_queue_3).2.1 := by
  have hne : (spNodeScenario.process_one_step 0 1).1.priority_queue_3 ≠ [] := by
    simp [FogNode.process_one_step, spNodeScenario, reqScenario3, reqScenario2,
      reqScenario, drainQueue, stampStart] <;> norm_num [drainQueue]
  have h := (c8_strict_priority_ordering 0 1 spNodeScenario).1 rfl hne
  exact ⟨hne, h.1, h.2.2⟩

/-- On a non-empty completion window the weight update takes the dual-ascent
branch: for some window metrics `J1, J2, J3` the node's dual variables and
weights are rewritten by the clamped ascent and normalisation formulas. -/
theorem update_window_shape (t : ℚ) (n : FogNode)
    (hW : (n.completed_history.filter fun r =>
        optTest (fun ct => decide (t - n.sla_window_TW ≤ ct)) r.completion_time).isEmpty
      = false) :
    ∃ J1 J2 J3 : ℚ,
      n.update_sla_weights_window t =
        { n with
          lambda_1 := max 0 (n.lambda_1 + n.sla_eta1 * (J1 - n.sla_J1_max))
          lambda_2 := max 0 (n.lambda_2 + n.sla_eta2 * (J2 - n.sla_J2_max_s))
          lambda_3 := max 0 (n.lambda_3 + n.sla_eta3 * (J3 - n.sla_J3_max))
          alpha := (max 0 (n.lambda_1 + n.sla_eta1 * (J1 - n.sla_J1_max)) + n.sla_eps) /
            ((max 0 (n.lambda_1 + n.sla_eta1 * (J1 - n.sla_J1_max)) + n.sla_eps) +
              (max 0 (n.lambda_2 + n.sla_eta2 * (J2 - n.sla_J2_max_s)) + n.sla_eps) +
              (max 0 (n.lambda_3 + n.sla_eta3 * (J3 - n.sla_J3_max)) + n.sla_eps))
          beta := (max 0 (n.lambda_2 + n.sla_eta2 * (J2 - n.sla_J2_max_s)) + n.sla_eps) /
            ((max 0 (n.lambda_1 + n.sla_eta1 * (J1 - n.sla_J1_max)) + n.sla_eps) +
              (max 0 (n.lambda_2 + n.sla_eta2 * (J2 - n.sla_J2_max_s)) + n.sla_eps) +
              (max 0 (n.lambda_3 + n.sla_eta3 * (J3 - n.sla_J3_max)) + n.sla_eps))
          gamma := (max 0 (n.lambda_3 + n.sla_eta3 * (J3 - n.sla_J3_max)) + n.sla_eps) /
            ((max 0 (n.lambda_1 + n.sla_eta1 * (J1 - n.sla_J1_max)) + n.sla_eps) +
              (max 0 (n.lambda_2 + n.sla_eta2 * (J2 - n.sla_J2_max_s)) + n.sla_eps) +
              (max 0 (n.lambda_3 + n.sla_eta3 * (J3 - n.sla_J3_max)) + n.sla_eps)) } := by
  simp only [FogNode.update_sla_weights_window]
  rw [if_neg (by rw [hW]; simp)]
  exact ⟨_, _, _, rfl⟩

/-- The normalisation algebra: three non-negative duals shifted by a
positive epsilon and divided by their sum give weights that sum to one and
lie strictly inside `(0, 1]`. -/
theorem weight_norm_core (u v w e : ℚ) (hu : 0 ≤ u) (hv : 0 ≤ v) (hw : 0 ≤ w)
    (he : 0 < e) :
    (u + e) / ((u + e) + (v + e) + (w + e)) +
        (v + e) / ((u + e) + (v + e) + (w + e)) +
        (w + e) / ((u + e) + (v + e) + (w + e)) = 1 ∧
      0 < (u + e) / ((u + e) + (v + e) + (w + e)) ∧
      (u + e) / ((u + e) + (v + e) + (w + e)) ≤ 1 ∧
      0 < (v + e) / ((u + e) + (v + e) + (w + e)) ∧
      (v + e) / ((u + e) + (v + e) + (w + e)) ≤ 1 ∧
      0 < (w + e) / ((u + e) + (v + e) + (w + e)) ∧
      (w + e) / ((u + e) + (v + e) + (w + e)) ≤ 1 := by
  have hS : 0 < (u + e) + (v + e) + (w + e) := by linarith
  refine ⟨?_, div_pos (by linarith) hS, (div_le_one hS).mpr (by linarith),
    div_pos (by linarith) hS, (div_le_one hS).mpr (by linarith),
    div_pos (by linarith) hS, (div_le_one hS).mpr (by linarith)⟩
  rw [div_add_div_same, div_add_div_same]
  exact div_self (ne_of_gt hS)

/-- C5.  Weight-normalisation invariant of the SLA-adaptive policy: with a
positive epsilon, whenever the adaptive weight update finds a non-empty
completion window it leaves the dual variables non-negative, the three
weights summing to exactly one, and each weight strictly positive (so never
exactly zero, even when all duals are zero) and at most one; and on any
window contents the update preserves the invariant. -/
theorem c5_weight_normalization (t : ℚ) (n : FogNode) (heps : 0 < n.sla_eps) :
    ((n.completed_history.filter fun r =>
        optTest (fun ct => decide (t - n.sla_window_TW ≤ ct)) r.completion_time).isEmpty
        = false →
      slaWeightInv (n.update_sla_weights_window t)) ∧
    (slaWeightInv n → slaWeightInv (n.update_sla_weights_window t)) := by
  have key : (n.completed_history.filter fun r =>
      optTest (fun ct => decide (t - n.sla_window_TW ≤ ct)) r.completion_time).isEmpty
        = false →
      slaWeightInv (n.update_sla_weights_window t) := by
    intro hW
    obtain ⟨J1, J2, J3, hm⟩ := update_window_shape t n hW
    rw [hm]
    obtain ⟨hsum, ha1, ha2, hb1, hb2, hc1, hc2⟩ :=
      weight_norm_core
        (max 0 (n.lambda_1 + n.sla_eta1 * (J1 - n.sla_J1_max)))
        (max 0 (n.lambda_2 + n.sla_eta2 * (J2 - n.sla_J2_max_s)))
        (max 0 (n.lambda_3 + n.sla_eta3 * (J3 - n.sla_J3_max)))
        n.sla_eps (le_max_left _ _) (le_max_left _ _) (le_max_left _ _) heps
    exact ⟨le_max_left _ _, le_max_left _ _, le_max_left _ _, hsum,
      ha1, ha2, hb1, hb2, hc1, hc2⟩
  refine ⟨key, ?_⟩
  intro hinv
  by_cases hW : (n.completed_history.filter fun r =>
      optTest (fun ct => decide (t - n.sla_window_TW ≤ ct)) r.completion_time).isEmpty
        = true
  · have hid : n.update_sla_weights_window t = n := by
      simp only [FogNode.update_sla_weights_window]
      rw [if_pos hW]
    rw [hid]
    exact hinv
  · exact key (by simpa using hW)

/-- Witness for C5 at a concrete input: the idle SLA node's positive epsilon
and initial weights `1/3, 1/3, 1/3` satisfy the invariant, so it still holds
after a weight update at `t = 0`. -/
theorem c5_witness : slaWeightInv (slaNodeEmpty.update_sla_weights_window 0) :=
  (c5_weight_normalization 0 slaNodeEmpty (by norm_num [slaNodeEmpty])).2
    (by norm_num [slaWeightInv, slaNodeEmpty])

/-- The weight update leaves the window length `sla_window_TW` unchanged. -/
theorem update_window_TW_field (t : ℚ) (n : FogNode) :
    (n.update_sla_weights_window t).sla_window_TW = n.sla_window_TW := by
  unfold FogNode.update_sla_weights_window
  dsimp only
  split <;> rfl

/-- C6 counterexample: the raw weight update is NOT idempotent.  On the
node whose history holds one deadline-missing class-3 completion, a second
update at the same time with the same window contents shifts `lambda_1`
again (`9/500` after two updates versus `9/1000` after one), because the
dual ascent re-adds `eta1 * (J1 - J1_max)` on every call. -/
theorem c6_counterexample :
    ((slaNodeHist.update_sla_weights_window 0).update_sla_weights_window 0).lambda_1 ≠
      (slaNodeHist.update_sla_weights_window 0).lambda_1 := by
  have h1 : slaNodeHist.update_sla_weights_window 0 = slaNodeHistOnce := by
    simp [FogNode.update_sla_weights_window, slaNodeHist, slaNodeHistOnce, slaNodeEmpty,
      reqMissed, optTest, Request.deadline_met, Request.latency,
      List.filterMap_cons, List.filterMap_nil] <;>
      norm_num [reqMissed, Request.latency, List.filterMap_cons, List.filterMap_nil]
  rw [h1]
  have h2 : (slaNodeHistOnce.update_sla_weights_window 0).lambda_1 = 9/500 := by
    simp [FogNode.update_sla_weights_window, slaNodeHistOnce, slaNodeEmpty,
      reqMissed, optTest, Request.deadline_met, Request.latency,
      List.filterMap_cons, List.filterMap_nil] <;>
      norm_num [reqMissed, Request.latency, List.filterMap_cons, List.filterMap_nil]
  rw [h2]
  norm_num [slaNodeHistOnce, slaNodeEmpty]

/-- C6 amended: the update as actually invoked by `process_one_step` IS
idempotent, because it runs behind the wall-clock window guard
`current_time - _last_window_update >= TW`: with a positive window length,
applying the guarded update twice at the same simulation time equals
applying it once (the first application moves `_last_window_update` to
`current_time`, so the guard fails immediately afterwards). -/
theorem c6_guarded_idempotent (t : ℚ) (n : FogNode) (hTW : 0 < n.sla_window_TW) :
    maybeWindowUpdate t (maybeWindowUpdate t n) = maybeWindowUpdate t n := by
  by_cases hg : n.sla_window_TW ≤ t - n.last_window_update
  · have hfirst : maybeWindowUpdate t n =
        { n.update_sla_weights_window t with last_window_update := t } := by
      unfold maybeWindowUpdate
      rw [if_pos hg]
    rw [hfirst]
    have hc : ¬ (({ n.update_sla_weights_window t with
          last_window_update := t } : FogNode).sla_window_TW ≤
        t - ({ n.update_sla_weights_window t with
          last_window_update := t } : FogNode).last_window_update) := by
      dsimp only
      rw [update_window_TW_field]
      intro hle
      rw [sub_self] at hle
      linarith
    unfold maybeWindowUpdate
    rw [if_neg hc]
  · have hfirst : maybeWindowUpdate t n = n := by
      unfold maybeWindowUpdate
      rw [if_neg hg]
    rw [hfirst, hfirst]

/-- Witness for C6 amended at a concrete input: the idle SLA node has the
default positive window `TW = 10`, and the guarded update at `t = 0` is
idempotent there. -/
theorem c6_witness :
    0 < slaNodeEmpty.sla_window_TW ∧
      maybeWindowUpdate 0 (maybeWindowUpdate 0 slaNodeEmpty) =
        maybeWindowUpdate 0 slaNodeEmpty :=
  ⟨by norm_num [slaNodeEmpty],
    c6_guarded_idempotent 0 slaNodeEmpty (by norm_num [slaNodeEmpty])⟩

/-- Appending to a dynamic class queue never touches the link-load
accumulator. -/
theorem addToDynamicQueue_link (n : FogNode) (r : Request) :
    (addToDynamicQueue n r).current_link_load = n.current_link_load := by
  unfold addToDynamicQueue
  split
  · rfl
  · split <;> rfl

/-- On a finite link the admitted tail of `enqueue_request` adds the
request's `data_size` to the per-step link-load accumulator. -/
theorem finishAdmit_link (n : FogNode) (r : Request) (lc : ℚ)
    (hlc : n.link_capacity = Option.some lc) :
    (finishAdmit n r).1.current_link_load = n.current_link_load + r.data_size := by
  unfold finishAdmit
  rw [hlc]

/-- C7 counterexample: the claimed accounting fails for the SLA-adaptive
policy.  The idle SLA node admits `reqEasy` (whose `data_size` is `1`), yet
its per-step link-load accumulator stays at `0`: the SLA branch of
`enqueue_request` returns right after the class-queue append, before the
link-load update line. -/
theorem c7_counterexample :
    (slaNodeEmpty.enqueue_request reqEasy 1).2 = EnqueueResult.admitted ∧
      (slaNodeEmpty.enqueue_request reqEasy 1).1.current_link_load = 0 ∧
      reqEasy.data_size = 1 := by
  refine ⟨?_, ?_, rfl⟩ <;>
    simp [FogNode.enqueue_request, slaNodeEmpty, reqEasy, optTest,
      FogNode.admission_control_check_timebased, dynamicTotalRemaining, sumRemaining,
      addToDynamicQueue, preemptMaybe] <;> norm_num

/-- C7 amended: the caller checks the link budget before any admission is
attempted — `can_accept_request` holds iff the step's accumulated link load
plus the request's `data_size` fits in `link_capacity * dt`, and `routeOne`
drops the request without calling `enqueue_request` when it fails; every
request admitted by a non-SLA policy adds its `data_size` to the node's
per-step link-load accumulator; but an SLA-adaptive admission leaves the
accumulator unchanged, so the accounting is NOT policy-independent. -/
theorem c7_link_budget_accounting (dt : ℚ) (n : FogNode) (r : Request) (lc : ℚ) :
    (n.link_capacity = Option.some lc →
      (n.can_accept_request r dt = true ↔
        n.current_link_load + r.data_size ≤ lc * dt)) ∧
    (n.link_capacity = Option.some lc →
      n.scheduler ≠ Scheduler.slaDwpFog →
      (n.enqueue_request r dt).2 = EnqueueResult.admitted →
      (n.enqueue_request r dt).1.current_link_load =
        n.current_link_load + r.data_size) ∧
    (n.scheduler = Scheduler.slaDwpFog →
      (n.enqueue_request r dt).1.current_link_load = n.current_link_load) ∧
    (∀ (st : List FogNode × Metrics) (i : Nat),
      nearestIdx r.source_position st.1 = Option.some i →
      (st.1.getD i default).can_accept_request
        { r with assigned_fog_id := Option.some (st.1.getD i default).node_id } dt
          = false →
      routeOne dt st r =
        (st.1, { st.2 with total_dropped := st.2.total_dropped + 1 })) := by
  refine ⟨?_, ?_, ?_, ?_⟩
  · intro hlc
    simp [FogNode.can_accept_request, hlc]
  · intro hlc hns hadm
    unfold FogNode.enqueue_request at hadm ⊢
    dsimp only at hadm ⊢
    by_cases hful : optTest (fun m => decide (m ≤ n.get_total_queue_length))
        n.max_queue_length = true
    · rw [if_pos hful] at hadm
      exact absurd hadm (by simp)
    · rw [if_neg hful] at hadm ⊢
      cases hs : n.scheduler with
      | slaDwpFog => exact absurd hs hns
      | staticPriority =>
        dsimp only at hadm ⊢
        split
        · exact finishAdmit_link _ r lc hlc
        · split <;> exact finishAdmit_link _ r lc hlc
      | emergencyFirst =>
        dsimp only at hadm ⊢
        split <;> exact finishAdmit_link _ r lc hlc
      | fifo =>
        rw [hs] at hadm
        dsimp only at hadm ⊢
        by_cases hq : optTest (fun m => decide (m ≤ n.queue.length))
            n.max_queue_length = true
        · rw [if_pos hq] at hadm
          exact absurd hadm (fun h => EnqueueResult.noConfusion h)
        · rw [if_neg hq] at hadm ⊢
          exact finishAdmit_link _ r lc hlc
  · intro hs
    unfold FogNode.enqueue_request
    dsimp only
    by_cases hful : optTest (fun m => decide (m ≤ n.get_total_queue_length))
        n.max_queue_length = true
    · rw [if_pos hful]
    · rw [if_neg hful]
      rw [hs]
      dsimp only
      by_cases hchk : n.admission_control_check_timebased r = true
      · rw [if_pos hchk]
        dsimp only
        obtain ⟨-, -, -, -, -, -, -, -, -, hpl, -⟩ :=
          preemptMaybe_fields (addToDynamicQueue n r) r
        rw [hpl, addToDynamicQueue_link]
      · rw [if_neg hchk]
  · intro st i hnear hacc
    unfold routeOne
    dsimp only
    rw [hnear]
    dsimp only
    rw [if_neg (by rw [hacc]; simp)]

/-- Witness for C7 amended at a concrete input: the FIFO node with a finite
link admits `reqEasy` through `finishAdmit` and its link-load accumulator
grows by exactly `reqEasy.data_size`. -/
theorem c7_witness :
    fifoNodeLink.can_accept_request reqEasy 1 = true ∧
      (fifoNodeLink.enqueue_request reqEasy 1).2 = EnqueueResult.admitted ∧
      (fifoNodeLink.enqueue_request reqEasy 1).1.current_link_load =
        fifoNodeLink.current_link_load + reqEasy.data_size := by
  have hadm : (fifoNodeLink.enqueue_request reqEasy 1).2 = EnqueueResult.admitted := by
    simp [FogNode.enqueue_request, fifoNodeLink, reqEasy, optTest, finishAdmit]
  refine ⟨?_, hadm, ?_⟩
  · norm_num [FogNode.can_accept_request, fifoNodeLink, reqEasy]
  · exact (c7_link_budget_accounting 1 fifoNodeLink reqEasy 50).2.1 rfl
      (by simp [fifoNodeLink]) hadm

/-- Arrivals of the requests completed by the head-of-queue drain all come
from the queue, so they are bounded by any bound on the queued arrivals. -/
theorem drain_completed_arrival (now dt : ℚ) (q : List Request)
    (hq : ∀ x ∈ q, x.arrival_time ≤ now) :
    ∀ cap : ℚ, ∀ r' ∈ (drainQueue now dt cap q).2.1, r'.arrival_time ≤ now := by
  induction q with
  | nil =>
    intro cap r' h
    simp [drainQueue] at h
  | cons r rest ih =>
    intro cap r' hr'
    by_cases hc : 0 < cap
    · by_cases hrem : r.remaining_demand ≤ cap
      · rw [drain_cons_complete now dt cap r rest hc hrem] at hr'
        rcases List.mem_cons.mp hr' with h | h
        · rw [h]
          have : (stampStart now r).arrival_time = r.arrival_time := stampStart_arrival now r
          dsimp only
          rw [this]
          exact hq r (List.mem_cons_self r rest)
        · exact ih (fun x hx => hq x (List.mem_cons_of_mem r hx)) _ r' h
      · rw [drain_cons_over now dt cap r rest hc hrem] at hr'
        simp at hr'
    · rw [drain_nopower now dt cap (r :: rest) hc] at hr'
      simp at hr'

/-- C9 counterexample: `start_time` is NOT set exactly at the first moment a
request receives processing capacity.  The preemption path of the SLA
branch of `enqueue_request` installs the new request as current and stamps
its `start_time` with its arrival time at admission, before any capacity
has been spent on it (its remaining demand is still its full processing
demand). -/
theorem c9_counterexample :
    (slaNodePre.enqueue_request reqEasy 1).2 = EnqueueResult.admitted ∧
      (slaNodePre.enqueue_request reqEasy 1).1.current_request =
        Option.some { reqEasy with start_time := Option.some 0 } ∧
      reqEasy.start_time = Option.none ∧
      reqEasy.remaining_demand = reqEasy.processing_demand := by
  refine ⟨?_, ?_, rfl, rfl⟩ <;>
    simp [FogNode.enqueue_request, slaNodePre, slaNodeEmpty, reqEasy, reqScenario,
      optTest, FogNode.admission_control_check_timebased, dynamicTotalRemaining,
      sumRemaining, addToDynamicQueue, preemptMaybe, FogNode.priority_score, scoreW,
      clamp01, min_def, max_def] <;> norm_num

/-- C9 amended timestamp facts: the processing stamp never overwrites an
already-set `start_time`; every request completed by the head-of-queue
drain gets `completion_time = now + dt`, which is at or after its arrival
when arrivals precede the step; queued uncompleted requests keep
`completion_time = None`; and the preemption path either leaves the
in-service slot unchanged or installs the new request with its original
`start_time` if it was set — stamping it with the arrival time (without any
capacity having been granted) only when it was unset. -/
theorem c9_timestamp_invariants (now dt cap : ℚ) (q : List Request) (r : Request)
    (n : FogNode) :
    (r.start_time ≠ Option.none → (stampStart now r).start_time = r.start_time) ∧
    ((∀ x ∈ q, x.arrival_time ≤ now) → 0 ≤ dt →
      ∀ r' ∈ (drainQueue now dt cap q).2.1,
        r'.completion_time = Option.some (now + dt) ∧ r'.arrival_time ≤ now + dt) ∧
    ((∀ x ∈ q, x.completion_time = Option.none ∧ 0 < x.remaining_demand) →
      ∀ r' ∈ (drainQueue now dt cap q).1, r'.completion_time = Option.none) ∧
    ((preemptMaybe n r).current_request = n.current_request ∨
      (preemptMaybe n r).current_request = Option.some
        (if r.start_time = Option.none then
          { r with start_time := Option.some r.arrival_time }
         else r)) := by
  refine ⟨?_, ?_, ?_, ?_⟩
  · intro hset
    unfold stampStart
    rw [if_neg hset]
  · intro harr hdt r' hr'
    refine ⟨(drain_completed now dt q cap r' hr').2, ?_⟩
    have h := drain_completed_arrival now dt q harr cap r' hr'
    linarith
  · intro hq r' hr'
    exact (drain_queued now dt q hq cap r' hr').1
  · unfold preemptMaybe
    cases hcur : n.current_request with
    | none => exact Or.inl hcur
    | some cur =>
      dsimp only
      split
      · exact Or.inr rfl
      · exact Or.inl hcur

/-- Witness for C9 amended at a concrete input: draining `[reqEasy]` at
`now = 0`, `dt = 1` with budget `1` completes it with
`completion_time = 0 + 1`, at or after its arrival. -/
theorem c9_witness :
    reqEasyDone ∈ (drainQueue 0 1 1 [reqEasy]).2.1 ∧
      reqEasyDone.completion_time = Option.some (0 + 1) ∧
      reqEasyDone.arrival_time ≤ 0 + 1 := by
  have he : (drainQueue 0 1 1 [reqEasy]).2.1 = [reqEasyDone] := by
    simp [drainQueue, stampStart, reqEasy, reqEasyDone] <;> norm_num
  have hm : reqEasyDone ∈ (drainQueue 0 1 1 [reqEasy]).2.1 := by
    rw [he]
    exact List.mem_singleton.mpr rfl
  refine ⟨hm, (c9_timestamp_invariants 0 1 1 [reqEasy] reqEasy slaNodeEmpty).2.1
    ?_ (by norm_num) reqEasyDone hm⟩
  intro x hx
  rw [List.mem_singleton.mp hx]
  norm_num [reqEasy]

/-- C10 counterexample: a non-positive arrival bound does NOT fail fast.
The generator's constructor validates only the type-probability sum (which
passes on the hard-coded defaults), and `generate_requests` with
`max_requests_per_step = 0` returns the empty batch (zero arrivals) without
raising, for every RNG stream. -/
theorem c10_counterexample :
    request_generator_init_check default_type_probabilities = Except.ok () ∧
      ∀ draws : List ℚ,
        generate_requests_num_new { max_requests_per_step := 0 } draws = 0 := by
  constructor
  · unfold request_generator_init_check
    rw [if_neg]
    norm_num [default_type_probabilities]
  · intro draws
    unfold generate_requests_num_new
    rw [if_pos]
    norm_num

/-- C10 amended: topology construction fails fast exactly on a non-positive
grid dimension (`build_grid_topology` errors iff
`num_fog_nodes_x <= 0` or `num_fog_nodes_y <= 0`); but a non-positive
arrival bound is not a construction error: the generator's constructor
accepts any positive probability sum without inspecting
`max_requests_per_step`, and `generate_requests` then just yields zero
arrivals per step. -/
theorem c10_config_error_handling (config : SimulationConfig) :
    ((config.num_fog_nodes_x ≤ 0 ∨ config.num_fog_nodes_y ≤ 0) ↔
      ∃ e, build_grid_topology config = Except.error e) ∧
    (config.max_requests_per_step ≤ 0 →
      ∀ draws, generate_requests_num_new config draws = 0) ∧
    (∀ tp : List ℚ, 0 < tp.sum →
      request_generator_init_check tp = Except.ok ()) := by
  refine ⟨⟨?_, ?_⟩, ?_, ?_⟩
  · intro h
    unfold build_grid_topology
    rw [if_pos h]
    exact ⟨_, rfl⟩
  · intro hex
    by_contra hpos
    obtain ⟨e, he⟩ := hex
    unfold build_grid_topology at he
    rw [if_neg hpos] at he
    exact Except.noConfusion he
  · intro h draws
    unfold generate_requests_num_new
    rw [if_pos h]
  · intro tp htp
    unfold request_generator_init_check
    rw [if_neg (not_le.mpr htp)]

/-- Witness for C10 amended at concrete inputs: the zero-width grid errors,
the zero arrival bound yields zero arrivals, and the default probability
weights pass the constructor check. -/
theorem c10_witness :
    (∃ e, build_grid_topology { num_fog_nodes_x := 0 } = Except.error e) ∧
      generate_requests_num_new { max_requests_per_step := 0 } [] = 0 ∧
      request_generator_init_check default_type_probabilities = Except.ok () :=
  ⟨(c10_config_error_handling { num_fog_nodes_x := 0 }).1.mp (Or.inl (by norm_num)),
    (c10_config_error_handling { max_requests_per_step := 0 }).2.1 (by norm_num) [],
    (c10_config_error_handling {}).2.2 default_type_probabilities
      (by norm_num [default_type_probabilities])⟩

theorem sum_map_set (l : List FogNode) (i : Nat) (x : FogNode) (h : i < l.length) :
    ((l.set i x).map FogNode.get_total_queue_length).sum +
        (l[i]).get_total_queue_length =
      (l.map FogNode.get_total_queue_length).sum + x.get_total_queue_length := by
  induction l generalizing i with
  | nil => simp at h
  | cons a tl ih =>
    cases i with
    | zero =>
      simp [List.set]
      omega
    | succ j =>
      have hj : j < tl.length := by simpa using h
      have hh := ih j hj
      simp [List.set] at hh ⊢
      omega

theorem nearestIdxFrom_bounds (pos : ℚ × ℚ) :
    ∀ (l : List FogNode) (k i : Nat) (d : ℚ),
      nearestIdxFrom pos l k = Option.some (i, d) → k ≤ i ∧ i < k + l.length := by
  intro l
  induction l with
  | nil =>
    intro k i d h
    simp [nearestIdxFrom] at h
  | cons node rest ih =>
    intro k i d h
    have hu : nearestIdxFrom pos (node :: rest) k =
        match nearestIdxFrom pos rest (k + 1) with
        | Option.none =>
            Option.some (k, (node.position.1 - pos.1) ^ 2 + (node.position.2 - pos.2) ^ 2)
        | Option.some (j, dj) =>
            if dj < (node.position.1 - pos.1) ^ 2 + (node.position.2 - pos.2) ^ 2 then
              Option.some (j, dj)
            else
              Option.some (k, (node.position.1 - pos.1) ^ 2 + (node.position.2 - pos.2) ^ 2) :=
      rfl
    rw [hu] at h
    cases hrec : nearestIdxFrom pos rest (k + 1) with
    | none =>
      rw [hrec] at h
      dsimp only at h
      have h1 : k = i := congrArg Prod.fst (Option.some.inj h)
      simp only [List.length_cons]
      omega
    | some jd =>
      obtain ⟨j, dj⟩ := jd
      rw [hrec] at h
      dsimp only at h
      by_cases hlt : dj < (node.position.1 - pos.1) ^ 2 + (node.position.2 - pos.2) ^ 2
      · rw [if_pos hlt] at h
        have h1 : j = i := congrArg Prod.fst (Option.some.inj h)
        have hb := ih (k + 1) j dj hrec
        simp only [List.length_cons]
        omega
      · rw [if_neg hlt] at h
        have h1 : k = i := congrArg Prod.fst (Option.some.inj h)
        simp only [List.length_cons]
        omega

theorem nearestIdxFrom_isSome (pos : ℚ × ℚ) :
    ∀ (l : List FogNode) (k : Nat), l ≠ [] →
      (nearestIdxFrom pos l k).isSome = true := by
  intro l
  cases l with
  | nil =>
    intro k h
    exact absurd rfl h
  | cons node rest =>
    intro k h
    have hu : nearestIdxFrom pos (node :: rest) k =
        match nearestIdxFrom pos rest (k + 1) with
        | Option.none =>
            Option.some (k, (node.position.1 - pos.1) ^ 2 + (node.position.2 - pos.2) ^ 2)
        | Option.some (j, dj) =>
            if dj < (node.position.1 - pos.1) ^ 2 + (node.position.2 - pos.2) ^ 2 then
              Option.some (j, dj)
            else
              Option.some (k, (node.position.1 - pos.1) ^ 2 + (node.position.2 - pos.2) ^ 2) :=
      rfl
    rw [hu]
    cases hrec : nearestIdxFrom pos rest (k + 1) with
    | none => rfl
    | some jd =>
      obtain ⟨j, dj⟩ := jd
      dsimp only
      split <;> rfl

/-- Every non-empty node list yields a nearest node at a valid index. -/
theorem nearestIdx_lt (pos : ℚ × ℚ) (l : List FogNode) (h : l ≠ []) :
    ∃ i, nearestIdx pos l = Option.some i ∧ i < l.length := by
  have hs := nearestIdxFrom_isSome pos l 0 h
  obtain ⟨⟨i, d⟩, hv⟩ := Option.isSome_iff_exists.mp hs
  have hb := nearestIdxFrom_bounds pos l 0 i d hv
  refine ⟨i, ?_, by omega⟩
  simp [nearestIdx, hv]

/-- Resetting per-step state keeps the combined queue length. -/
theorem sysSize_reset (nodes : List FogNode) :
    sysSize (nodes.map FogNode.reset_step_state) = sysSize nodes := by
  unfold sysSize
  rw [List.map_map]
  exact congrArg List.sum (List.map_congr_left fun a _ => rfl)

/-- `routeOne` unfolded on a successful nearest-node lookup. -/
theorem routeOne_some (dt : ℚ) (st : List FogNode × Metrics) (req : Request) (i : Nat)
    (hi : nearestIdx req.source_position st.1 = Option.some i) :
    routeOne dt st req =
      (if (st.1.getD i default).can_accept_request
          { req with assigned_fog_id := Option.some (st.1.getD i default).node_id } dt then
        match ((st.1.getD i default).enqueue_request
            { req with assigned_fog_id := Option.some (st.1.getD i default).node_id } dt).2 with
        | EnqueueResult.admitted =>
            (st.1.set i ((st.1.getD i default).enqueue_request
                { req with assigned_fog_id := Option.some (st.1.getD i default).node_id } dt).1,
              { st.2 with total_admitted := st.2.total_admitted + 1 })
        | EnqueueResult.admissionRejected =>
            (st.1.set i ((st.1.getD i default).enqueue_request
                { req with assigned_fog_id := Option.some (st.1.getD i default).node_id } dt).1,
              { st.2 with total_rejected := st.2.total_rejected + 1 })
        | EnqueueResult.queueFull =>
            (st.1.set i ((st.1.getD i default).enqueue_request
                { req with assigned_fog_id := Option.some (st.1.getD i default).node_id } dt).1,
              { st.2 with total_dropped := st.2.total_dropped + 1 })
       else (st.1, { st.2 with total_dropped := st.2.total_dropped + 1 })) := by
  unfold routeOne
  dsimp only
  rw [hi]

/-- One routing decision classifies its request exactly once and keeps the
books balanced: the node list stays non-empty and well-formed, generated and
completed counters are untouched, the admit/reject/drop sum grows by one,
and admissions grow together with the system population. -/
theorem routeOne_facts (dt : ℚ) (st : List FogNode × Metrics) (req : Request)
    (hne : st.1 ≠ []) (hwf : ∀ n ∈ st.1, nodeWf n) :
    (routeOne dt st req).1 ≠ [] ∧
      (∀ n ∈ (routeOne dt st req).1, nodeWf n) ∧
      (routeOne dt st req).2.total_generated = st.2.total_generated ∧
      (routeOne dt st req).2.total_completed = st.2.total_completed ∧
      (routeOne dt st req).2.total_admitted + (routeOne dt st req).2.total_rejected +
          (routeOne dt st req).2.total_dropped =
        st.2.total_admitted + st.2.total_rejected + st.2.total_dropped + 1 ∧
      (routeOne dt st req).2.total_admitted + sysSize st.1 =
        st.2.total_admitted + sysSize (routeOne dt st req).1 := by
  obtain ⟨i, hi, hilt⟩ := nearestIdx_lt req.source_position st.1 hne
  rw [routeOne_some dt st req i hi]
  by_cases hacc : (st.1.getD i default).can_accept_request
      { req with assigned_fog_id := Option.some (st.1.getD i default).node_id } dt = true
  · rw [if_pos hacc]
    have hget : st.1.getD i default = st.1[i] := List.getD_eq_getElem st.1 default hilt
    have hnodewf : nodeWf (st.1.getD i default) := by
      rw [hget]
      exact hwf _ (List.getElem_mem hilt)
    obtain ⟨hsch, hwf', hadm, hnadm⟩ := enqueue_request_facts (st.1.getD i default)
      { req with assigned_fog_id := Option.some (st.1.getD i default).node_id } dt
    have hsum := sum_map_set st.1 i
      ((st.1.getD i default).enqueue_request
        { req with assigned_fog_id := Option.some (st.1.getD i default).node_id } dt).1 hilt
    rw [← hget] at hsum
    have hlenpos : 0 < st.1.length := Nat.lt_of_le_of_lt (Nat.zero_le i) hilt
    have hne' : st.1.set i
        ((st.1.getD i default).enqueue_request
          { req with assigned_fog_id := Option.some (st.1.getD i default).node_id } dt).1
        ≠ [] := by
      apply List.ne_nil_of_length_pos
      simpa using hlenpos
    have hwfs : ∀ n ∈ st.1.set i
        ((st.1.getD i default).enqueue_request
          { req with assigned_fog_id := Option.some (st.1.getD i default).node_id } dt).1,
        nodeWf n := by
      intro n hn
      rcases List.mem_or_eq_of_mem_set hn with h | h
      · exact hwf n h
      · rw [h]
        exact hwf' hnodewf
    split <;> rename_i hres
    · have htot := hadm hres
      refine ⟨hne', hwfs, rfl, rfl, ?_, ?_⟩
      · dsimp only
        omega
      · dsimp only
        unfold sysSize
        omega
    · have htot := hnadm (by rw [hres]; exact fun h => EnqueueResult.noConfusion h)
      refine ⟨hne', hwfs, rfl, rfl, ?_, ?_⟩
      · dsimp only
        omega
      · dsimp only
        unfold sysSize
        omega
    · have htot := hnadm (by rw [hres]; exact fun h => EnqueueResult.noConfusion h)
      refine ⟨hne', hwfs, rfl, rfl, ?_, ?_⟩
      · dsimp only
        omega
      · dsimp only
        unfold sysSize
        omega
  · rw [if_neg hacc]
    exact ⟨hne, hwf, rfl, rfl, by dsimp only; omega, rfl⟩

/-- Folding `routeOne` over a whole arrival batch classifies every request
exactly once while preserving the node-list and population books. -/
theorem routeAll_facts (dt : ℚ) :
    ∀ (arrivals : List Request) (st : List FogNode × Metrics), st.1 ≠ [] →
      (∀ n ∈ st.1, nodeWf n) →
      (arrivals.foldl (routeOne dt) st).1 ≠ [] ∧
        (∀ n ∈ (arrivals.foldl (routeOne dt) st).1, nodeWf n) ∧
        (arrivals.foldl (routeOne dt) st).2.total_generated = st.2.total_generated ∧
        (arrivals.foldl (routeOne dt) st).2.total_completed = st.2.total_completed ∧
        (arrivals.foldl (routeOne dt) st).2.total_admitted +
            (arrivals.foldl (routeOne dt) st).2.total_rejected +
            (arrivals.foldl (routeOne dt) st).2.total_dropped =
          st.2.total_admitted + st.2.total_rejected + st.2.total_dropped +
            arrivals.length ∧
        (arrivals.foldl (routeOne dt) st).2.total_admitted + sysSize st.1 =
          st.2.total_admitted + sysSize (arrivals.foldl (routeOne dt) st).1 := by
  intro arrivals
  induction arrivals with
  | nil =>
    intro st h1 h2
    exact ⟨h1, h2, rfl, rfl, rfl, rfl⟩
  | cons a rest ih =>
    intro st h1 h2
    have h := routeOne_facts dt st a h1 h2
    have hrec := ih (routeOne dt st a) h.1 h.2.1
    rw [List.foldl_cons]
    refine ⟨hrec.1, hrec.2.1, hrec.2.2.1.trans h.2.2.1,
      hrec.2.2.2.1.trans h.2.2.2.1, ?_, ?_⟩
    · have e1 := hrec.2.2.2.2.1
      have e2 := h.2.2.2.2.1
      simp only [List.length_cons]
      omega
    · have e1 := hrec.2.2.2.2.2
      have e2 := h.2.2.2.2.2
      omega

/-- Processing every node preserves the list shape and well-formedness and
moves exactly the completed requests out of the system population. -/
theorem processAll_facts (t dt : ℚ) :
    ∀ nodes : List FogNode, (∀ n ∈ nodes, nodeWf n) →
      (processAll t dt nodes).1.length = nodes.length ∧
        (∀ n ∈ (processAll t dt nodes).1, nodeWf n) ∧
        (processAll t dt nodes).2.length + sysSize (processAll t dt nodes).1 =
          sysSize nodes := by
  intro nodes
  induction nodes with
  | nil =>
    intro h
    exact ⟨rfl, by simp [processAll], by simp [processAll, sysSize]⟩
  | cons node rest ih =>
    intro h
    have hn := process_one_step_count t dt node (h node (List.mem_cons_self node rest))
    have hr := ih fun x hx => h x (List.mem_cons_of_mem node hx)
    refine ⟨?_, ?_, ?_⟩
    · simp [processAll]
      exact hr.1
    · intro n hn'
      rcases List.mem_cons.mp hn' with hh | hh
      · rw [hh]
        exact hn.2.1
      · exact hr.2.1 n hh
    · have e1 := hn.2.2
      have e2 := hr.2.2
      have hc1 : (processAll t dt (node :: rest)).2.length =
          (node.process_one_step t dt).2.length + (processAll t dt rest).2.length := by
        simp [processAll]
      have hc2 : sysSize (processAll t dt (node :: rest)).1 =
          (node.process_one_step t dt).1.get_total_queue_length +
            sysSize (processAll t dt rest).1 := by
        simp [processAll, sysSize]
      have hc3 : sysSize (node :: rest) =
          node.get_total_queue_length + sysSize rest := by
        simp [sysSize]
      omega

/-- One simulation step preserves both conservation identities: every
generated request is classified exactly once, and admissions equal
completions plus the requests still held in the system. -/
theorem simStep_facts (t dt : ℚ) (arrivals : List Request) (nodes : List FogNode)
    (m : Metrics) (hne : nodes ≠ []) (hwf : ∀ n ∈ nodes, nodeWf n) :
    (simStep t dt arrivals nodes m).1 ≠ [] ∧
      (∀ n ∈ (simStep t dt arrivals nodes m).1, nodeWf n) ∧
      (m.total_generated = m.total_admitted + m.total_rejected + m.total_dropped →
        (simStep t dt arrivals nodes m).2.total_generated =
          (simStep t dt arrivals nodes m).2.total_admitted +
            (simStep t dt arrivals nodes m).2.total_rejected +
            (simStep t dt arrivals nodes m).2.total_dropped) ∧
      (m.total_admitted = m.total_completed + sysSize nodes →
        (simStep t dt arrivals nodes m).2.total_admitted =
          (simStep t dt arrivals nodes m).2.total_completed +
            sysSize (simStep t dt arrivals nodes m).1) := by
  have hlenpos : 0 < nodes.length := List.length_pos.mpr hne
  have hne0 : nodes.map FogNode.reset_step_state ≠ [] := by
    apply List.ne_nil_of_length_pos
    simpa using hlenpos
  have hwf0 : ∀ n ∈ nodes.map FogNode.reset_step_state, nodeWf n := by
    intro n hn
    obtain ⟨a, ha, rfl⟩ := List.mem_map.mp hn
    exact hwf a ha
  have hra := routeAll_facts dt arrivals
    (nodes.map FogNode.reset_step_state,
      { m with total_generated := m.total_generated + arrivals.length }) hne0 hwf0
  have hpa := processAll_facts t dt
    (arrivals.foldl (routeOne dt)
      (nodes.map FogNode.reset_step_state,
        { m with total_generated := m.total_generated + arrivals.length })).1 hra.2.1
  have hsys0 := sysSize_reset nodes
  unfold simStep
  dsimp only
  refine ⟨?_, hpa.2.1, ?_, ?_⟩
  · apply List.ne_nil_of_length_pos
    rw [hpa.1]
    exact List.length_pos.mpr hra.1
  · intro hg
    have e1 := hra.2.2.1
    have e2 := hra.2.2.2.2.1
    dsimp only at e1 e2 ⊢
    omega
  · intro ha
    have e1 := hra.2.2.2.1
    have e2 := hra.2.2.2.2.2
    have e3 := hpa.2.2
    dsimp only at e1 e2 ⊢
    omega

/-- C4.  Conservation of request classification: at every step boundary of
a run over non-empty, well-formed nodes whose metrics start balanced,
`total_generated = total_admitted + total_rejected + total_dropped` (each
generated request is classified exactly once as admitted, rejected by
admission control, or dropped for link capacity / queue full),
`total_admitted = total_completed` plus the requests still held in the
system, and hence `total_completed ≤ total_admitted` at all times. -/
theorem c4_conservation (dt : ℚ) (batches : List (List Request)) :
    ∀ (t : ℚ) (nodes : List FogNode) (m : Metrics),
      nodes ≠ [] → (∀ n ∈ nodes, nodeWf n) →
      m.total_generated = m.total_admitted + m.total_rejected + m.total_dropped →
      m.total_admitted = m.total_completed + sysSize nodes →
      (simRun dt t batches nodes m).2.total_generated =
          (simRun dt t batches nodes m).2.total_admitted +
            (simRun dt t batches nodes m).2.total_rejected +
            (simRun dt t batches nodes m).2.total_dropped ∧
        (simRun dt t batches nodes m).2.total_admitted =
          (simRun dt t batches nodes m).2.total_completed +
            sysSize (simRun dt t batches nodes m).1 ∧
        (simRun dt t batches nodes m).2.total_completed ≤
          (simRun dt t batches nodes m).2.total_admitted := by
  induction batches with
  | nil =>
    intro t nodes m h1 h2 h3 h4
    refine ⟨h3, h4, ?_⟩
    show m.total_completed ≤ m.total_admitted
    omega
  | cons arrivals rest ih =>
    intro t nodes m h1 h2 h3 h4
    have hs := simStep_facts t dt arrivals nodes m h1 h2
    simp only [simRun]
    exact ih (t + dt) (simStep t dt arrivals nodes m).1 (simStep t dt arrivals nodes m).2
      hs.1 hs.2.1 (hs.2.2.1 h3) (hs.2.2.2 h4)

/-- Witness for C4 at a concrete input: one step over a single idle SLA node
with one arrival keeps both conservation identities. -/
theorem c4_witness :
    (simRun 1 0 [[reqEasy]] [slaNodeEmpty] ({} : Metrics)).2.total_generated =
        (simRun 1 0 [[reqEasy]] [slaNodeEmpty] ({} : Metrics)).2.total_admitted +
          (simRun 1 0 [[reqEasy]] [slaNodeEmpty] ({} : Metrics)).2.total_rejected +
          (simRun 1 0 [[reqEasy]] [slaNodeEmpty] ({} : Metrics)).2.total_dropped ∧
      (simRun 1 0 [[reqEasy]] [slaNodeEmpty] ({} : Metrics)).2.total_admitted =
        (simRun 1 0 [[reqEasy]] [slaNodeEmpty] ({} : Metrics)).2.total_completed +
          sysSize (simRun 1 0 [[reqEasy]] [slaNodeEmpty] ({} : Metrics)).1 ∧
      (simRun 1 0 [[reqEasy]] [slaNodeEmpty] ({} : Metrics)).2.total_completed ≤
        (simRun 1 0 [[reqEasy]] [slaNodeEmpty] ({} : Metrics)).2.total_admitted :=
  c4_conservation 1 [[reqEasy]] 0 [slaNodeEmpty] ({} : Metrics)
    (by simp)
    (by
      intro n hn
      rw [List.mem_singleton.mp hn]
      simp [nodeWf, slaNodeEmpty])
    rfl
    (by simp [sysSize, slaNodeEmpty, FogNode.get_total_queue_length])

end FogSim
